import Mathlib

/-!
# CodeViz: URL codec, page controller and iframe loader

A shallow embedding of `src/visulaizer.js`, `src/parser.js` and `src/viz.js`.

JavaScript strings are sequences of UTF-16 code units; they are embedded as
`List Nat` (every unit below `65536`).  JavaScript functions that may raise are
embedded as functions into `Except JsError`.  The ECMAScript and URL-standard
built-ins the source calls (`encodeURIComponent`, `decodeURIComponent`,
`String.prototype.replace`, `trim`, `endsWith`, `URLSearchParams`) are embedded
from the algorithms of the respective standards.
-/

namespace CodeViz

/-! ## Strings -/

/-- A JavaScript string: a sequence of UTF-16 code units. -/
abbrev JSString := List Nat

/-- Exceptions the embedded code can raise. -/
inductive JsError where
  | URIError
  | TypeError
  deriving DecidableEq, Repr

instance instDecidableEqExcept {ε α : Type} [DecidableEq ε] [DecidableEq α] :
    DecidableEq (Except ε α)
  | .ok a, .ok b => if h : a = b then isTrue (by rw [h]) else isFalse (fun h2 => h (by cases h2; rfl))
  | .error a, .error b =>
    if h : a = b then isTrue (by rw [h]) else isFalse (fun h2 => h (by cases h2; rfl))
  | .ok _, .error _ => isFalse (fun h => by cases h)
  | .error _, .ok _ => isFalse (fun h => by cases h)

/-- UTF16EncodeCodePoint (ECMA-262): the code units of one code point. -/
def utf16EncodeCodePoint (cp : Nat) : List Nat :=
  if cp < 0x10000 then [cp]
  else [0xD800 + (cp - 0x10000) / 0x400, 0xDC00 + (cp - 0x10000) % 0x400]

/-- The code units of a string literal of the source text. -/
def js (s : String) : JSString :=
  (s.toList.map (fun c => utf16EncodeCodePoint c.toNat)).flatten

/-- A leading (high) surrogate code unit. -/
def isLeadingSurrogate (c : Nat) : Bool := 0xD800 ≤ c && c ≤ 0xDBFF

/-- A trailing (low) surrogate code unit. -/
def isTrailingSurrogate (c : Nat) : Bool := 0xDC00 ≤ c && c ≤ 0xDFFF

/-- A well-formed UTF-16 string: every unit is a 16-bit value and surrogates
occur only as a leading one directly followed by a trailing one. -/
def wellFormed : JSString → Bool
  | [] => true
  | [c] => c < 0x10000 && !isLeadingSurrogate c && !isTrailingSurrogate c
  | c :: d :: rest =>
    if isLeadingSurrogate c then isTrailingSurrogate d && wellFormed rest
    else c < 0x10000 && !isTrailingSurrogate c && wellFormed (d :: rest)

/-! ## ECMA-262 `Encode` and `encodeURIComponent` -/

/-- The always-unescaped set of `Encode`: the ASCII word characters
(letters, digits, `_`) and the marks `-.!~*'()`. -/
def alwaysUnescaped (c : Nat) : Bool :=
  (0x41 ≤ c && c ≤ 0x5A) || (0x61 ≤ c && c ≤ 0x7A) || (0x30 ≤ c && c ≤ 0x39) ||
  c == 0x5F || c == 0x2D || c == 0x2E || c == 0x21 || c == 0x7E || c == 0x2A ||
  c == 0x27 || c == 0x28 || c == 0x29

/-- The UTF-8 transformation of a code point into octets. -/
def utf8Octets (cp : Nat) : List Nat :=
  if cp < 0x80 then [cp]
  else if cp < 0x800 then [0xC0 + cp / 0x40, 0x80 + cp % 0x40]
  else if cp < 0x10000 then [0xE0 + cp / 0x1000, 0x80 + cp / 0x40 % 0x40, 0x80 + cp % 0x40]
  else [0xF0 + cp / 0x40000, 0x80 + cp / 0x1000 % 0x40, 0x80 + cp / 0x40 % 0x40,
        0x80 + cp % 0x40]

/-- One uppercase hexadecimal digit, as a code unit. -/
def hexDigitUpper (n : Nat) : Nat := if n < 10 then 0x30 + n else 0x37 + n

/-- The escape `%XX` of one octet: uppercase hexadecimal, padded to two digits. -/
def percentEscape (octet : Nat) : List Nat :=
  [0x25, hexDigitUpper (octet / 16), hexDigitUpper (octet % 16)]

/-- The escapes of a list of octets, concatenated. -/
def percentEscapes (octets : List Nat) : List Nat :=
  (octets.map percentEscape).flatten

/-- The loop of `Encode` for an arbitrary unescaped set: an unescaped unit is
copied; otherwise the code point at the position is read (a surrogate pair
counts as one code point, an unpaired surrogate raises `URIError`) and the
escapes of its UTF-8 octets are appended. -/
def encodeLoop (unescaped : Nat → Bool) : JSString → Except JsError JSString
  | [] => .ok []
  | c :: rest =>
    if unescaped c then
      match encodeLoop unescaped rest with
      | .ok r => .ok (c :: r)
      | .error e => .error e
    else if isLeadingSurrogate c then
      match rest with
      | [] => .error .URIError
      | d :: rest2 =>
        if isTrailingSurrogate d then
          match encodeLoop unescaped rest2 with
          | .ok r =>
            .ok (percentEscapes (utf8Octets ((c - 0xD800) * 0x400 + (d - 0xDC00) + 0x10000)) ++ r)
          | .error e => .error e
        else .error .URIError
    else if isTrailingSurrogate c then .error .URIError
    else
      match encodeLoop unescaped rest with
      | .ok r => .ok (percentEscapes (utf8Octets c) ++ r)
      | .error e => .error e

/-- The abstract operation `Encode(string, extraUnescaped)` of ECMA-262. -/
def Encode (string : JSString) (extraUnescaped : JSString) : Except JsError JSString :=
  encodeLoop (fun c => alwaysUnescaped c || extraUnescaped.contains c) string

/-- The built-in `encodeURIComponent`: `Encode` with no extra unescaped units. -/
def encodeURIComponent (s : JSString) : Except JsError JSString := Encode s []

/-! ## ECMA-262 `Decode` and `decodeURIComponent` -/

/-- The value of one hexadecimal digit (either case). -/
def hexValue (c : Nat) : Option Nat :=
  if 0x30 ≤ c ∧ c ≤ 0x39 then some (c - 0x30)
  else if 0x41 ≤ c ∧ c ≤ 0x46 then some (c - 0x37)
  else if 0x61 ≤ c ∧ c ≤ 0x66 then some (c - 0x57)
  else none

/-- ParseHexOctet: the octet written by the two units at the front of the
input, with the input that follows them. -/
def parseHexOctet : JSString → Option (Nat × JSString)
  | a :: b :: rest =>
    match hexValue a, hexValue b with
    | some h, some l => some (16 * h + l, rest)
    | _, _ => none
  | _ => none

/-- The number of leading 1 bits of an octet (5 stands for "more than 4"). -/
def leadingOnes (b : Nat) : Nat :=
  if b < 0x80 then 0 else if b < 0xC0 then 1 else if b < 0xE0 then 2
  else if b < 0xF0 then 3 else if b < 0xF8 then 4 else 5

/-- The inner loop of `Decode`: reads `j` further escapes `%XX`. -/
def readContinuation : Nat → JSString → Option (List Nat × JSString)
  | 0, s => some ([], s)
  | j + 1, c :: s =>
    if c = 0x25 then
      match parseHexOctet s with
      | some (b, s1) =>
        match readContinuation j s1 with
        | some (bs, s2) => some (b :: bs, s2)
        | none => none
      | none => none
    else none
  | _ + 1, [] => none

/-- A continuation octet `10xxxxxx`. -/
def isContinuation (b : Nat) : Bool := 0x80 ≤ b && b < 0xC0

/-- The code point of a multi-octet UTF-8 sequence, when the octets are a valid
UTF-8 encoding of a code point: continuation octets, shortest form, no
surrogate, at most `0x10FFFF`. -/
def utf8CodePoint : List Nat → Option Nat
  | [b0, b1] =>
    let v := (b0 - 0xC0) * 0x40 + (b1 - 0x80)
    if isContinuation b1 && 0x80 ≤ v then some v else none
  | [b0, b1, b2] =>
    let v := (b0 - 0xE0) * 0x1000 + (b1 - 0x80) * 0x40 + (b2 - 0x80)
    if isContinuation b1 && isContinuation b2 && 0x800 ≤ v &&
        !(0xD800 ≤ v && v ≤ 0xDFFF) then some v else none
  | [b0, b1, b2, b3] =>
    let v := (b0 - 0xF0) * 0x40000 + (b1 - 0x80) * 0x1000 + (b2 - 0x80) * 0x40 + (b3 - 0x80)
    if isContinuation b1 && isContinuation b2 && isContinuation b3 && 0x10000 ≤ v &&
        v ≤ 0x10FFFF then some v else none
  | _ => none

/-- One iteration of the outer loop of `Decode` on a non-empty input (empty
preserve set, as for `decodeURIComponent`): the units to append to the result
and the input that remains. -/
def decodeStep : JSString → Except JsError (JSString × JSString)
  | [] => .ok ([], [])
  | c :: rest =>
    if c = 0x25 then
      match parseHexOctet rest with
      | none => .error .URIError
      | some (b, rest1) =>
        let n := leadingOnes b
        if n = 0 then .ok ([b], rest1)
        else if n = 1 ∨ n > 4 then .error .URIError
        else
          match readContinuation (n - 1) rest1 with
          | none => .error .URIError
          | some (bs, rest2) =>
            match utf8CodePoint (b :: bs) with
            | none => .error .URIError
            | some v => .ok (utf16EncodeCodePoint v, rest2)
    else .ok ([c], rest)

/-- The outer loop of `Decode`; `fuel` bounds the number of iterations, and
every iteration consumes at least one unit. -/
def decodeLoop : Nat → JSString → Except JsError JSString
  | 0, _ => .ok []
  | _ + 1, [] => .ok []
  | fuel + 1, c :: rest =>
    match decodeStep (c :: rest) with
    | .error e => .error e
    | .ok (out, rest1) =>
      match decodeLoop fuel rest1 with
      | .error e => .error e
      | .ok r => .ok (out ++ r)

/-- The built-in `decodeURIComponent`: the loop runs while the index is below
the length of the string. -/
def decodeURIComponent (s : JSString) : Except JsError JSString :=
  decodeLoop s.length s

/-! ## `String.prototype` built-ins -/

/-- The method `replace` with a global pattern matching the single unit `c`. -/
def replaceAll (c : Nat) (by_ : JSString) : JSString → JSString
  | [] => []
  | x :: rest => if x = c then by_ ++ replaceAll c by_ rest else x :: replaceAll c by_ rest

/-- The method `endsWith`. -/
def endsWith (s suffix : JSString) : Bool := suffix.isSuffixOf s

/-- WhiteSpace and LineTerminator code units, as stripped by `trim`. -/
def isWhiteSpace (c : Nat) : Bool :=
  c == 0x09 || c == 0x0A || c == 0x0B || c == 0x0C || c == 0x0D || c == 0x20 ||
  c == 0xA0 || c == 0x1680 || (0x2000 ≤ c && c ≤ 0x200A) || c == 0x2028 ||
  c == 0x2029 || c == 0x202F || c == 0x205F || c == 0x3000 || c == 0xFEFF

/-- The method `trim`. -/
def trim (s : JSString) : JSString :=
  ((s.dropWhile isWhiteSpace).reverse.dropWhile isWhiteSpace).reverse

/-! ## The codec of the repository -/

/-- The function `encodeCodeForUrl` of `visulaizer.js`. -/
def encodeCodeForUrl (code : JSString) : Except JsError JSString :=
  encodeURIComponent code

/-- The function `decodeCodeFromUrl` of `visulaizer.js`: the `catch` clause
turns every exception of `decodeURIComponent` into the empty string. -/
def decodeCodeFromUrl (encodedCode : JSString) : Except JsError JSString :=
  match decodeURIComponent encodedCode with
  | .ok r => .ok r
  | .error _ => .ok []

/-- The three chained `replace` calls of `Parser.encodeCode` and `Viz.encodeCode`. -/
def escapeQuotesAndNewlines (s : JSString) : JSString :=
  replaceAll 0x0A (js "%0A") (replaceAll 0x22 (js "%22") (replaceAll 0x27 (js "%27") s))

/-- The function `Parser.encodeCode` of `parser.js`. -/
def Parser.encodeCode (code : JSString) : Except JsError JSString :=
  match encodeURIComponent code with
  | .ok r => .ok (escapeQuotesAndNewlines r)
  | .error e => .error e

/-- The function `Viz.encodeCode` of `viz.js`. -/
def Viz.encodeCode (code : JSString) : Except JsError JSString :=
  match encodeURIComponent code with
  | .ok r => .ok (escapeQuotesAndNewlines r)
  | .error e => .error e

/-! ## URL standard: the query of an address and `URLSearchParams` -/

/-- Conversion of a string to scalar values: a surrogate pair is one code
point, an unpaired surrogate becomes U+FFFD. -/
def toCodePoints : JSString → List Nat
  | [] => []
  | [c] => if isLeadingSurrogate c || isTrailingSurrogate c then [0xFFFD] else [c]
  | c :: d :: rest =>
    if isLeadingSurrogate c then
      if isTrailingSurrogate d then
        ((c - 0xD800) * 0x400 + (d - 0xDC00) + 0x10000) :: toCodePoints rest
      else 0xFFFD :: toCodePoints (d :: rest)
    else if isTrailingSurrogate c then 0xFFFD :: toCodePoints (d :: rest)
    else c :: toCodePoints (d :: rest)

/-- UTF-8 encode of the URL standard. -/
def utf8Encode (s : JSString) : List Nat :=
  ((toCodePoints s).map utf8Octets).flatten

/-- Percent-decode of the URL standard, on octets: an escape `%XX` becomes its
octet, a `%` that starts no escape is kept. -/
def percentDecode : List Nat → List Nat
  | [] => []
  | [c] => [c]
  | [c, a] => [c, a]
  | c :: a :: b :: rest =>
    if c = 0x25 then
      match hexValue a, hexValue b with
      | some h, some l => (16 * h + l) :: percentDecode rest
      | _, _ => c :: percentDecode (a :: b :: rest)
    else c :: percentDecode (a :: b :: rest)

/-- The state of the UTF-8 decoder of the Encoding standard. -/
structure Utf8Decoder where
  codePoint : Nat
  bytesSeen : Nat
  bytesNeeded : Nat
  lower : Nat
  upper : Nat
  deriving DecidableEq, Repr

/-- The initial state of the UTF-8 decoder. -/
def Utf8Decoder.init : Utf8Decoder := ⟨0, 0, 0, 0x80, 0xBF⟩

/-- The decoder on an octet when no octet is pending: the new state and the
code points emitted (U+FFFD for an error). -/
def utf8Lead (b : Nat) : Utf8Decoder × List Nat :=
  if b ≤ 0x7F then (Utf8Decoder.init, [b])
  else if 0xC2 ≤ b ∧ b ≤ 0xDF then (⟨b % 0x20, 0, 1, 0x80, 0xBF⟩, [])
  else if 0xE0 ≤ b ∧ b ≤ 0xEF then
    (⟨b % 0x10, 0, 2, if b = 0xE0 then 0xA0 else 0x80, if b = 0xED then 0x9F else 0xBF⟩, [])
  else if 0xF0 ≤ b ∧ b ≤ 0xF4 then
    (⟨b % 0x08, 0, 3, if b = 0xF0 then 0x90 else 0x80, if b = 0xF4 then 0x8F else 0xBF⟩, [])
  else (Utf8Decoder.init, [0xFFFD])

/-- The handler of the UTF-8 decoder for one octet. -/
def utf8Feed (st : Utf8Decoder) (b : Nat) : Utf8Decoder × List Nat :=
  if st.bytesNeeded = 0 then utf8Lead b
  else if b < st.lower ∨ st.upper < b then
    ((utf8Lead b).1, 0xFFFD :: (utf8Lead b).2)
  else if st.bytesSeen + 1 = st.bytesNeeded then
    (Utf8Decoder.init, [st.codePoint * 0x40 + b % 0x40])
  else
    (⟨st.codePoint * 0x40 + b % 0x40, st.bytesSeen + 1, st.bytesNeeded, 0x80, 0xBF⟩, [])

/-- The run of the UTF-8 decoder over the octets, from a state. -/
def utf8DecodeFrom (st : Utf8Decoder) : List Nat → List Nat
  | [] => if st.bytesNeeded = 0 then [] else [0xFFFD]
  | b :: rest => (utf8Feed st b).2 ++ utf8DecodeFrom (utf8Feed st b).1 rest

/-- UTF-8 decode without BOM, with replacement of errors, as a string. -/
def utf8DecodeWithoutBOM (bytes : List Nat) : JSString :=
  ((utf8DecodeFrom Utf8Decoder.init bytes).map utf16EncodeCodePoint).flatten

/-- Strictly split a list of octets on a separator octet. -/
def splitOn (sep : Nat) : List Nat → List (List Nat)
  | [] => [[]]
  | c :: rest =>
    if c = sep then [] :: splitOn sep rest
    else
      match splitOn sep rest with
      | [] => [[c]]
      | h :: t => (c :: h) :: t

/-- The octets of a sequence up to the first `=`, and those after it. -/
def splitNameValue : List Nat → List Nat × List Nat
  | [] => ([], [])
  | c :: rest =>
    if c = 0x3D then ([], rest)
    else ((c :: (splitNameValue rest).1), (splitNameValue rest).2)

/-- One name or value of the form-urlencoded parser: `+` becomes a space, then
percent-decode, then UTF-8 decode without BOM. -/
def urlencodedComponent (bytes : List Nat) : JSString :=
  utf8DecodeWithoutBOM (percentDecode (bytes.map (fun b => if b = 0x2B then 0x20 else b)))

/-- The `application/x-www-form-urlencoded` parser of the URL standard: the
list of name-value pairs of the input. -/
def parseUrlencoded (input : JSString) : List (JSString × JSString) :=
  ((splitOn 0x26 (utf8Encode input)).filter (fun bytes => !bytes.isEmpty)).map
    (fun bytes =>
      (urlencodedComponent (splitNameValue bytes).1, urlencodedComponent (splitNameValue bytes).2))

/-- The constructor `new URLSearchParams(init)` for a string `init`: a leading
`?` is removed and the rest is parsed. -/
def URLSearchParams.new : JSString → List (JSString × JSString)
  | 0x3F :: rest => parseUrlencoded rest
  | s => parseUrlencoded s

/-- The method `get` of `URLSearchParams`: the value of the first pair with
the given name, or `null`. -/
def URLSearchParams.get (params : List (JSString × JSString)) (name : JSString) :
    Option JSString :=
  match params.find? (fun p => p.1 == name) with
  | some p => some p.2
  | none => none

/-- The special-query percent-encode set of the URL standard. -/
def inSpecialQueryEncodeSet (cp : Nat) : Bool :=
  cp ≤ 0x1F || 0x7E < cp || cp == 0x20 || cp == 0x22 || cp == 0x23 || cp == 0x3C ||
  cp == 0x3E || cp == 0x27

/-- An ASCII tab or newline, removed from an address by the URL parser. -/
def isAsciiTabOrNewline (c : Nat) : Bool := c == 0x09 || c == 0x0A || c == 0x0D

/-- The query part of an address, taken after the first `?`; `none` when the
address has no `?`. -/
def queryOf : JSString → Option JSString
  | [] => none
  | c :: rest => if c = 0x3F then some rest else queryOf rest

/-- The value of `location.search` after the assignment of `href` to
`location.href`, for an `http(s)` page, as the URL parser computes it: C0
controls and spaces are stripped from both ends and tabs and newlines removed,
the fragment is cut off at the first `#`, the query is what follows the first
`?`, percent-encoded with the special-query set; an empty query gives `""`. -/
def searchOfHref (href : JSString) : JSString :=
  let stripped :=
    ((href.dropWhile (fun c => decide (c ≤ 0x20))).reverse.dropWhile
      (fun c => decide (c ≤ 0x20))).reverse
  let cleaned := stripped.filter (fun c => !isAsciiTabOrNewline c)
  let noFragment := cleaned.takeWhile (fun c => c != 0x23)
  match queryOf noFragment with
  | none => []
  | some [] => []
  | some q =>
    0x3F :: ((toCodePoints q).map (fun cp =>
      if inSpecialQueryEncodeSet cp then percentEscapes (utf8Octets cp)
      else utf16EncodeCodePoint cp)).flatten

/-! ## The document and the state of the script -/

/-- The elements the script looks up, by identifier: `editor`,
`visualize-btn` and `iframe-container`. -/
inductive ElementId where
  | editor
  | visualizeBtn
  | iframeContainer
  deriving DecidableEq, Repr

/-- An iframe element: its address and the other properties the script sets. -/
structure Iframe where
  src : JSString
  props : List (String × String)
  deriving DecidableEq, Repr

/-- A child of an element: content parsed from markup assigned to
`innerHTML`, an iframe element, or the widget mounted by `CodeMirror`. -/
inductive Node where
  | markup (html : JSString)
  | iframe (frame : Iframe)
  | codeMirror
  deriving DecidableEq, Repr

/-- The object returned by `CodeMirror(...)`: its text and the `readOnly` option. -/
structure Editor where
  value : JSString
  readOnly : Bool
  deriving DecidableEq, Repr

/-- The page as the script sees and changes it: the location, the three
elements (absent, or present with their children), the click listeners of the
button (each one is the closure of `setupEventListeners`, determined by the
`iframeContainer` argument it captured), the two variables of the script, and
the effects: the address assigned to `location.href`, the alerts shown and the
console messages. -/
structure Page where
  pathname : JSString
  search : JSString
  editorEl : Option (List Node)
  visualizeBtnEl : Option (List Node)
  iframeContainerEl : Option (List Node)
  listeners : List (Option ElementId)
  editor : Option Editor
  iframeContainer : Option ElementId
  href : Option JSString
  alerts : List String
  console : List String
  deriving DecidableEq, Repr

/-- The children of an element, `none` when the element is absent. -/
def Page.children (w : Page) : ElementId → Option (List Node)
  | .editor => w.editorEl
  | .visualizeBtn => w.visualizeBtnEl
  | .iframeContainer => w.iframeContainerEl

/-- Replace the children of a present element. -/
def Page.setChildren (w : Page) (el : ElementId) (nodes : List Node) : Page :=
  match el with
  | .editor => { w with editorEl := w.editorEl.map (fun _ => nodes) }
  | .visualizeBtn => { w with visualizeBtnEl := w.visualizeBtnEl.map (fun _ => nodes) }
  | .iframeContainer => { w with iframeContainerEl := w.iframeContainerEl.map (fun _ => nodes) }

/-- The call `document.getElementById`: the element, or `null`. -/
def Page.getElementById (w : Page) (el : ElementId) : Option ElementId :=
  if (w.children el).isSome then some el else none

/-- The assignment `el.innerHTML = html`: the children are replaced by the
parsed markup (none for the empty string). -/
def Page.setInnerHTML (w : Page) (el : ElementId) (html : JSString) : Page :=
  w.setChildren el (if html = [] then [] else [Node.markup html])

/-- The call `el.appendChild(node)`. -/
def Page.appendChild (w : Page) (el : ElementId) (node : Node) : Page :=
  w.setChildren el ((w.children el).getD [] ++ [node])

/-- A message written to the console. -/
def Page.log (w : Page) (msg : String) : Page := { w with console := w.console ++ [msg] }

/-- A node that is an iframe element. -/
def Node.isIframe : Node → Bool
  | .iframe _ => true
  | _ => false

/-! ## `visulaizer.js` -/

/-- The constant `PYTHON_TUTOR_RENDER_URL`. -/
def PYTHON_TUTOR_RENDER_URL : JSString := js "https://pythontutor.com/render.html"

/-- The function `initCodeEditor`: `null` when the container is absent,
otherwise the editor mounted in the container with the initial text. -/
def initCodeEditor (container : Option ElementId) (initialCode : JSString) (w : Page) :
    Option Editor × Page :=
  match container with
  | none => (none, w.log "CodeMirror container not found")
  | some el => (some ⟨initialCode, false⟩, w.appendChild el Node.codeMirror)

/-- The function `getCodeFromUrl`: the `code` parameter of `location.search`
(the empty string when there is none), passed through `decodeCodeFromUrl`. -/
def getCodeFromUrl (w : Page) : Except JsError JSString :=
  decodeCodeFromUrl ((URLSearchParams.get (URLSearchParams.new w.search) (js "code")).getD [])

/-- The function `buildPythonTutorUrl`; an omitted `lang` is `"c"`. -/
def buildPythonTutorUrl (code : JSString) (lang : Option JSString) : Except JsError JSString :=
  match encodeCodeForUrl code with
  | .error e => .error e
  | .ok encodedCode =>
    .ok (PYTHON_TUTOR_RENDER_URL ++ js "#mode=display&code=" ++ encodedCode ++ js "&lang=" ++
      lang.getD (js "c"))

/-- The function `navigateToVisualizer`. -/
def navigateToVisualizer (code : JSString) (w : Page) : Except JsError Page :=
  if code = [] ∨ trim code = [] then
    .ok { w with alerts := w.alerts ++ ["Please enter code before visualizing."] }
  else
    match encodeCodeForUrl code with
    | .error e => .error e
    | .ok encodedCode => .ok { w with href := some (js "visualizer.html?code=" ++ encodedCode) }

/-- The function `loadVisualizerIframe`; an omitted `lang` is `"c"`. -/
def loadVisualizerIframe (iframeContainer : Option ElementId) (code : JSString)
    (lang : Option JSString) (w : Page) : Except JsError Page :=
  match iframeContainer with
  | none => .ok (w.log "iframe container not found")
  | some el =>
    if code = [] then
      .ok (w.setInnerHTML el (js "<p style='color:red;'>No code to visualize.</p>"))
    else
      match buildPythonTutorUrl code (some (lang.getD (js "c"))) with
      | .error e => .error e
      | .ok src =>
        .ok ((w.setInnerHTML el []).appendChild el
          (Node.iframe ⟨src, [("id", "pt-iframe"), ("style.border", "none"),
            ("style.width", "100%"), ("style.height", "100%"), ("allowfullscreen", "true"),
            ("sandbox", "allow-scripts allow-same-origin allow-forms")]⟩))

/-- The click listener that `setupEventListeners` registers, for the
`iframeContainer` argument it was called with. -/
def clickListener (iframeContainer : Option ElementId) (w : Page) : Except JsError Page :=
  match w.editor with
  | none => .error .TypeError
  | some ed =>
    let code := ed.value
    if endsWith w.pathname (js "index.html") || endsWith w.pathname (js "/") then
      navigateToVisualizer code w
    else if endsWith w.pathname (js "visualizer.html") then
      loadVisualizerIframe iframeContainer code none w
    else .ok w

/-- The function `setupEventListeners`: `addEventListener` on the button,
which raises `TypeError` when the button is `null`. -/
def setupEventListeners (visualizeBtn iframeContainer : Option ElementId) (w : Page) :
    Except JsError Page :=
  match visualizeBtn with
  | none => .error .TypeError
  | some _ => .ok { w with listeners := w.listeners ++ [iframeContainer] }

/-- The sample program `initIndexPage` puts in the editor. -/
def defaultCode : JSString :=
  js "#include <stdio.h>\n\nint main() \x7b\n    printf(\"Hello, PythonTutor Visualizer!\\n\");\n    return 0;\n\x7d"

/-- The function `initIndexPage`. -/
def initIndexPage (w : Page) : Except JsError Page :=
  let editorContainer := w.getElementById .editor
  let visualizeBtn := w.getElementById .visualizeBtn
  let r := initCodeEditor editorContainer defaultCode w
  setupEventListeners visualizeBtn none { r.2 with editor := r.1 }

/-- The function `initVisualizerPage`. -/
def initVisualizerPage (w : Page) : Except JsError Page :=
  let iframeContainer := w.getElementById .iframeContainer
  let visualizeBtn := w.getElementById .visualizeBtn
  match getCodeFromUrl w with
  | .error e => .error e
  | .ok codeFromUrl =>
    if codeFromUrl = [] then
      match iframeContainer with
      | none => .error .TypeError
      | some el =>
        .ok (w.setInnerHTML el (js "<p style=\"color:red;\">No code provided to visualize.</p>"))
    else
      match loadVisualizerIframe iframeContainer codeFromUrl none w with
      | .error e => .error e
      | .ok w1 =>
        let editorContainer := w1.getElementById .editor
        let r := initCodeEditor editorContainer codeFromUrl w1
        match r.1 with
        | none => .error .TypeError
        | some ed =>
          setupEventListeners visualizeBtn iframeContainer
            { r.2 with editor := some { ed with readOnly := true } }

/-- The function `main`. -/
def main (w : Page) : Except JsError Page :=
  let w1 := { w with iframeContainer := w.getElementById .iframeContainer }
  let path := w1.pathname
  if endsWith path (js "index.html") || endsWith path (js "/") then initIndexPage w1
  else if endsWith path (js "visualizer.html") then initVisualizerPage w1
  else .ok (w1.log "Unknown page, no initialization performed.")

/-- A click on the visualize button: the registered listeners run in order;
an absent button cannot be clicked. -/
def click (w : Page) : Except JsError Page :=
  match w.visualizeBtnEl with
  | none => .ok w
  | some _ =>
    w.listeners.foldl
      (fun acc l => match acc with
        | .error e => .error e
        | .ok w1 => clickListener l w1)
      (.ok w)

/-! ## `parser.js` and `viz.js` -/

/-- The function `Parser.getCodeFromURL`: the `code` parameter as
`URLSearchParams` returns it, or the empty string. -/
def Parser.getCodeFromURL (w : Page) : JSString :=
  (URLSearchParams.get (URLSearchParams.new w.search) (js "code")).getD []

/-- The function `Viz.createVisualizerIframe`. -/
def Viz.createVisualizerIframe (container : Option ElementId) (code : JSString) (w : Page) :
    Except JsError Page :=
  match container with
  | none => .ok (w.log "Viz.createVisualizerIframe: container not found")
  | some el =>
    match Viz.encodeCode code with
    | .error e => .error e
    | .ok enc =>
      .ok ((w.setInnerHTML el []).appendChild el
        (Node.iframe ⟨js "visualizer.html?code=" ++ enc, [("title", "PythonTutor Visualizer"),
          ("loading", "lazy"), ("style.width", "100%"), ("style.height", "100%"),
          ("style.border", "none")]⟩))

/-- The page states of the controller. -/
inductive PageState where
  | Unknown
  | EditorPage
  | ViewerPage
  deriving DecidableEq, Repr

/-- A page freshly loaded at a location, before the script has run: no
listener, both script variables `null`, no effect yet. -/
def Page.fresh (pathname search : JSString)
    (editorEl visualizeBtnEl iframeContainerEl : Option (List Node)) : Page :=
  ⟨pathname, search, editorEl, visualizeBtnEl, iframeContainerEl, [], none, none, none, [], []⟩

/-- The user replaces the text of the editor, when there is one and it is not
read-only. -/
def Page.typeText (w : Page) (t : JSString) : Page :=
  { w with editor := w.editor.map (fun ed => if ed.readOnly then ed else { ed with value := t }) }

/-- The classification of a document path that `main` computes with its
chain of conditions. -/
def pageStateOf (path : JSString) : PageState :=
  if endsWith path (js "index.html") || endsWith path (js "/") then .EditorPage
  else if endsWith path (js "visualizer.html") then .ViewerPage
  else .Unknown

/-! ## Notions used to state the properties -/

/-- A Unicode scalar value: a code point that is not a surrogate. -/
def isScalarValue (cp : Nat) : Bool := cp < 0x110000 && !(0xD800 ≤ cp && cp ≤ 0xDFFF)

/-- The unescaped set of `encodeURIComponent`. -/
def uriComponentUnescaped (c : Nat) : Bool := alwaysUnescaped c || ([] : JSString).contains c

/-- The unescaped set that `Parser.encodeCode` and `Viz.encodeCode` realise:
that of `encodeURIComponent` without `'`, `"` and the newline. -/
def quotedUnescaped (c : Nat) : Bool :=
  ((uriComponentUnescaped c && c != 0x27) && c != 0x22) && c != 0x0A

/-- A printable character or the newline: the newline, or a Unicode scalar
value that is no control character (C0, DEL, C1). -/
def isPrintableOrNewline (cp : Nat) : Bool :=
  cp == 0x0A || (isScalarValue cp && 0x20 ≤ cp && !(0x7F ≤ cp && cp ≤ 0x9F))

/-- The string that consists of the given characters (code points). -/
def ofCodePoints (cps : List Nat) : JSString :=
  (cps.map utf16EncodeCodePoint).flatten

/-- The input starts with two hexadecimal digits. -/
def startsWithTwoHex : JSString → Bool
  | a :: b :: _ => (hexValue a).isSome && (hexValue b).isSome
  | _ => false

/-- The string holds a `%` that is not followed by two hexadecimal digits. -/
def hasMalformedEscape : JSString → Bool
  | [] => false
  | c :: rest => (c == 0x25 && !startsWithTwoHex rest) || hasMalformedEscape rest

/-- The text is the sequence of escapes `%XY` (digits of either case) of the
octets. -/
inductive EscapesOf : JSString → List Nat → Prop where
  | nil : EscapesOf [] []
  | cons (x y h l : Nat) (text : JSString) (octets : List Nat) :
    hexValue x = some h → hexValue y = some l → EscapesOf text octets →
    EscapesOf (0x25 :: x :: y :: text) ((16 * h + l) :: octets)

/-- A validly percent-encoded string: a sequence of units other than `%` and
of escape sequences, each of which writes the UTF-8 octets of one Unicode
scalar value. -/
inductive WellEncoded : JSString → Prop where
  | nil : WellEncoded []
  | literal (c : Nat) (s : JSString) : c ≠ 0x25 → WellEncoded s → WellEncoded (c :: s)
  | escaped (cp : Nat) (text s : JSString) :
    isScalarValue cp = true → EscapesOf text (utf8Octets cp) → WellEncoded s →
    WellEncoded (text ++ s)

/-- The scenario of the editor page: the script runs on the loaded page, the
user types `t` in the editor and clicks the visualize button. -/
def loadTypeClick (w : Page) (t : JSString) : Except JsError Page :=
  match main w with
  | .error e => .error e
  | .ok w1 => click (w1.typeText t)

/-! ## Page controller: classification -/

theorem endsWith_iff (s suffix : JSString) : endsWith s suffix = true ↔ suffix <:+ s := by
  simp [endsWith]

/-- A path that ends with `visualizer.html` ends neither with `index.html`
nor with `/`. -/
theorem viewer_suffix_excludes_editor (p : JSString)
    (h : endsWith p (js "visualizer.html") = true) :
    endsWith p (js "index.html") = false ∧ endsWith p (js "/") = false := by
  rw [endsWith_iff] at h
  constructor
  · cases h2 : endsWith p (js "index.html") with
    | false => rfl
    | true =>
      rw [endsWith_iff] at h2
      have h3 : js "index.html" <:+ js "visualizer.html" :=
        List.suffix_of_suffix_length_le h2 h (by decide)
      exact absurd h3 (by decide)
  · cases h2 : endsWith p (js "/") with
    | false => rfl
    | true =>
      rw [endsWith_iff] at h2
      have h3 : js "/" <:+ js "visualizer.html" :=
        List.suffix_of_suffix_length_le h2 h (by decide)
      exact absurd h3 (by decide)

/-- The chain of conditions of `main` selects the initialisation by the
classification of the path. -/
theorem main_dispatch (w : Page) :
    main w =
      match pageStateOf w.pathname with
      | .EditorPage => initIndexPage { w with iframeContainer := w.getElementById .iframeContainer }
      | .ViewerPage =>
        initVisualizerPage { w with iframeContainer := w.getElementById .iframeContainer }
      | .Unknown =>
        .ok (Page.log { w with iframeContainer := w.getElementById .iframeContainer }
          "Unknown page, no initialization performed.") := by
  unfold main pageStateOf
  cases h1 : endsWith w.pathname (js "index.html") <;>
    cases h2 : endsWith w.pathname (js "/") <;>
    cases h3 : endsWith w.pathname (js "visualizer.html") <;> simp [h1, h2, h3]

/-- The click listener dispatches on the classification of the path. -/
theorem clickListener_dispatch (l : Option ElementId) (w : Page) (ed : Editor)
    (h : w.editor = some ed) :
    clickListener l w =
      match pageStateOf w.pathname with
      | .EditorPage => navigateToVisualizer ed.value w
      | .ViewerPage => loadVisualizerIframe l ed.value none w
      | .Unknown => .ok w := by
  unfold clickListener pageStateOf
  rw [h]
  cases h1 : endsWith w.pathname (js "index.html") <;>
    cases h2 : endsWith w.pathname (js "/") <;>
    cases h3 : endsWith w.pathname (js "visualizer.html") <;> simp [h1, h2, h3]

/-- C7, as stated, fails: the path `/docs/` is not the site root, does not end
with `index.html` and does not end with `visualizer.html`, yet `main`
classifies it as the editor page and runs `initIndexPage` (the editor is
created and a click listener registered) instead of logging the warning. -/
theorem C7_counterexample :
    js "/docs/" ≠ js "/" ∧ endsWith (js "/docs/") (js "index.html") = false ∧
    endsWith (js "/docs/") (js "visualizer.html") = false ∧
    pageStateOf (js "/docs/") = .EditorPage ∧
    main (Page.fresh (js "/docs/") [] (some []) (some []) none) =
      initIndexPage (Page.fresh (js "/docs/") [] (some []) (some []) none) ∧
    main (Page.fresh (js "/docs/") [] (some []) (some []) none) =
      .ok ⟨js "/docs/", [], some [Node.codeMirror], some [], none, [none],
        some ⟨defaultCode, false⟩, none, none, [], []⟩ := by
  decide

/-- C7, amended: `main` enters the editor page exactly when the path ends with
`index.html` or ends with `/` (any directory path, not only the site root); it
enters the viewer page exactly when the path ends with `visualizer.html`; in
every other case it stays `Unknown`.  The states are mutually exclusive, and
`main` and the click listener dispatch on this same classification. -/
theorem C7_page_classification (p : JSString) :
    (pageStateOf p = .EditorPage ↔
      (endsWith p (js "index.html") = true ∨ endsWith p (js "/") = true)) ∧
    (pageStateOf p = .ViewerPage ↔ endsWith p (js "visualizer.html") = true) ∧
    (pageStateOf p = .Unknown ↔
      (endsWith p (js "index.html") = false ∧ endsWith p (js "/") = false ∧
        endsWith p (js "visualizer.html") = false)) ∧
    (∀ w : Page,
      main { w with pathname := p } =
        match pageStateOf p with
        | .EditorPage =>
          initIndexPage
            { w with pathname := p, iframeContainer := w.getElementById .iframeContainer }
        | .ViewerPage =>
          initVisualizerPage
            { w with pathname := p, iframeContainer := w.getElementById .iframeContainer }
        | .Unknown =>
          .ok (Page.log
            { w with pathname := p, iframeContainer := w.getElementById .iframeContainer }
            "Unknown page, no initialization performed.")) ∧
    (∀ (w : Page) (l : Option ElementId) (ed : Editor),
      clickListener l { w with pathname := p, editor := some ed } =
        match pageStateOf p with
        | .EditorPage => navigateToVisualizer ed.value { w with pathname := p, editor := some ed }
        | .ViewerPage =>
          loadVisualizerIframe l ed.value none { w with pathname := p, editor := some ed }
        | .Unknown => .ok { w with pathname := p, editor := some ed }) := by
  refine ⟨?_, ?_, ?_, ?_, ?_⟩
  · unfold pageStateOf
    cases h1 : endsWith p (js "index.html") <;> cases h2 : endsWith p (js "/") <;>
      cases h3 : endsWith p (js "visualizer.html") <;> simp
  · constructor
    · unfold pageStateOf
      cases h1 : endsWith p (js "index.html") <;> cases h2 : endsWith p (js "/") <;>
        cases h3 : endsWith p (js "visualizer.html") <;> simp
    · intro h
      have h4 := viewer_suffix_excludes_editor p h
      unfold pageStateOf
      simp [h, h4.1, h4.2]
  · unfold pageStateOf
    cases h1 : endsWith p (js "index.html") <;> cases h2 : endsWith p (js "/") <;>
      cases h3 : endsWith p (js "visualizer.html") <;> simp
  · intro w
    exact main_dispatch { w with pathname := p }
  · intro w l ed
    exact clickListener_dispatch l { w with pathname := p, editor := some ed } ed rfl

/-! ## Encoding succeeds on well-formed strings -/

theorem encodeLoop_ok_of_wellFormed (U : Nat → Bool) (hU : ∀ c, U c = true → c < 0x80)
    (n : Nat) :
    ∀ s : JSString, s.length ≤ n → wellFormed s = true → ∃ e, encodeLoop U s = .ok e := by
  induction n with
  | zero =>
    intro s hlen _
    cases s with
    | nil => exact ⟨[], rfl⟩
    | cons c rest => simp at hlen
  | succ n ih =>
    intro s hlen hwf
    match s, hlen, hwf with
    | [], _, _ => exact ⟨[], rfl⟩
    | [c], _, hwf =>
      simp only [wellFormed, Bool.and_eq_true, Bool.not_eq_true', decide_eq_true_eq] at hwf
      by_cases hu : U c = true
      · exact ⟨[c], by simp [encodeLoop, hu]⟩
      · exact ⟨percentEscapes (utf8Octets c) ++ [], by simp [encodeLoop, hu, hwf.1.2, hwf.2]⟩
    | c :: d :: rest, hlen, hwf =>
      simp only [List.length_cons] at hlen
      by_cases hu : U c = true
      · have hwf2 : wellFormed (d :: rest) = true := by
          by_cases hl : isLeadingSurrogate c = true
          · exfalso
            have h1 := hU c hu
            simp only [isLeadingSurrogate, Bool.and_eq_true, decide_eq_true_eq] at hl
            omega
          · simp [wellFormed, hl] at hwf
            exact hwf.2
        obtain ⟨e, he⟩ := ih (d :: rest) (by simp; omega) hwf2
        exact ⟨c :: e, by simp [encodeLoop, hu, he]⟩
      · by_cases hl : isLeadingSurrogate c = true
        · simp only [wellFormed, hl, if_true, Bool.and_eq_true] at hwf
          obtain ⟨e, he⟩ := ih rest (by omega) hwf.2
          exact ⟨percentEscapes (utf8Octets ((c - 0xD800) * 0x400 + (d - 0xDC00) + 0x10000)) ++ e,
            by simp [encodeLoop, hu, hl, hwf.1, he]⟩
        · simp [wellFormed, hl] at hwf
          obtain ⟨e, he⟩ := ih (d :: rest) (by simp; omega) hwf.2
          exact ⟨percentEscapes (utf8Octets c) ++ e, by simp [encodeLoop, hu, hl, hwf.1.2, he]⟩

/-! ## Decoding the escapes the encoder writes -/

theorem hexValue_hexDigitUpper (n : Nat) (h : n < 16) : hexValue (hexDigitUpper n) = some n := by
  interval_cases n <;> rfl

theorem percentEscapes_cons (b : Nat) (bs : List Nat) :
    percentEscapes (b :: bs) =
      0x25 :: hexDigitUpper (b / 16) :: hexDigitUpper (b % 16) :: percentEscapes bs := by
  simp [percentEscapes, percentEscape]

theorem percentEscapes_nil : percentEscapes [] = [] := rfl

theorem escapesOf_cons_inv (text : JSString) (o : Nat) (os : List Nat)
    (h : EscapesOf text (o :: os)) :
    ∃ x y hi lo text1, text = 0x25 :: x :: y :: text1 ∧ hexValue x = some hi ∧
      hexValue y = some lo ∧ o = 16 * hi + lo ∧ EscapesOf text1 os := by
  generalize ho : o :: os = octets at h
  cases h with
  | nil => cases ho
  | cons x y hi lo text1 octets1 hx hy ht =>
    injection ho with h1 h2
    subst h2
    exact ⟨x, y, hi, lo, text1, rfl, hx, hy, h1, ht⟩

theorem escapesOf_percentEscapes (octets : List Nat) (h : ∀ x ∈ octets, x < 256) :
    EscapesOf (percentEscapes octets) octets := by
  induction octets with
  | nil => exact EscapesOf.nil
  | cons b bs ih =>
    have hb : b < 256 := h b (List.mem_cons_self _ _)
    have ih2 := ih (fun x hx => h x (List.mem_cons_of_mem _ hx))
    rw [percentEscapes_cons]
    have key := EscapesOf.cons (hexDigitUpper (b / 16)) (hexDigitUpper (b % 16)) (b / 16) (b % 16)
      (percentEscapes bs) bs (hexValue_hexDigitUpper _ (by omega))
      (hexValue_hexDigitUpper _ (by omega)) ih2
    have e : 16 * (b / 16) + b % 16 = b := by omega
    rw [e] at key
    exact key

theorem utf8Octets_lt_256 (cp : Nat) (h : isScalarValue cp = true) :
    ∀ x ∈ utf8Octets cp, x < 256 := by
  simp only [isScalarValue, Bool.and_eq_true, decide_eq_true_eq, Bool.not_eq_true',
    Bool.and_eq_false_iff, decide_eq_false_iff_not] at h
  intro x hx
  unfold utf8Octets at hx
  split_ifs at hx <;> simp only [List.mem_cons, List.mem_singleton, List.not_mem_nil, or_false] at hx <;> omega

theorem parseHexOctet_digits (x y hi lo : Nat) (rest : JSString) (hx : hexValue x = some hi)
    (hy : hexValue y = some lo) :
    parseHexOctet (x :: y :: rest) = some (16 * hi + lo, rest) := by
  simp only [parseHexOctet, hx, hy]

theorem readContinuation_escapesOf (text : JSString) (octets : List Nat)
    (h : EscapesOf text octets) (rest : JSString) :
    readContinuation octets.length (text ++ rest) = some (octets, rest) := by
  induction h with
  | nil => simp [readContinuation]
  | cons x y hi lo text octets hx hy _ ih =>
    show readContinuation (octets.length + 1) (0x25 :: x :: y :: (text ++ rest)) = _
    simp only [readContinuation, if_true, parseHexOctet_digits x y hi lo _ hx hy, ih]

/-- The octets of a scalar value above ASCII are a lead octet that announces
their number and a valid UTF-8 sequence of that scalar value. -/
theorem utf8Octets_valid (cp : Nat) (h : isScalarValue cp = true) (h80 : 0x80 ≤ cp) :
    ∃ b bs, utf8Octets cp = b :: bs ∧ leadingOnes b = bs.length + 1 ∧
      1 ≤ bs.length ∧ bs.length ≤ 3 ∧ utf8CodePoint (b :: bs) = some cp := by
  simp only [isScalarValue, Bool.and_eq_true, decide_eq_true_eq, Bool.not_eq_true',
    Bool.and_eq_false_iff, decide_eq_false_iff_not] at h
  obtain ⟨hmax, hsur⟩ := h
  have h1 : ¬ cp < 0x80 := by omega
  by_cases h2 : cp < 0x800
  · refine ⟨0xC0 + cp / 0x40, [0x80 + cp % 0x40], by simp [utf8Octets, h1, h2], ?_, ?_, ?_, ?_⟩
    · simp only [leadingOnes, List.length_cons, List.length_nil]
      split_ifs <;> omega
    · simp only [List.length_cons, List.length_nil]
      omega
    · simp only [List.length_cons, List.length_nil]
      omega
    · simp only [utf8CodePoint, isContinuation, Bool.and_eq_true, decide_eq_true_eq]
      rw [if_pos (by omega)]
      exact congrArg some (by omega)
  · by_cases h3 : cp < 0x10000
    · refine ⟨0xE0 + cp / 0x1000, [0x80 + cp / 0x40 % 0x40, 0x80 + cp % 0x40],
        by simp [utf8Octets, h1, h2, h3], ?_, ?_, ?_, ?_⟩
      · simp only [leadingOnes, List.length_cons, List.length_nil]
        split_ifs <;> omega
      · simp only [List.length_cons, List.length_nil]
        omega
      · simp only [List.length_cons, List.length_nil]
        omega
      · simp only [utf8CodePoint, isContinuation, Bool.and_eq_true, decide_eq_true_eq,
          Bool.not_eq_true', Bool.and_eq_false_iff, decide_eq_false_iff_not]
        rw [if_pos (by omega)]
        exact congrArg some (by omega)
    · refine ⟨0xF0 + cp / 0x40000,
        [0x80 + cp / 0x1000 % 0x40, 0x80 + cp / 0x40 % 0x40, 0x80 + cp % 0x40],
        by simp [utf8Octets, h1, h2, h3], ?_, ?_, ?_, ?_⟩
      · simp only [leadingOnes, List.length_cons, List.length_nil]
        split_ifs <;> omega
      · simp only [List.length_cons, List.length_nil]
        omega
      · simp only [List.length_cons, List.length_nil]
        omega
      · simp only [utf8CodePoint, isContinuation, Bool.and_eq_true, decide_eq_true_eq]
        rw [if_pos (by omega)]
        exact congrArg some (by omega)

/-- The decoder reads the escape sequence of a scalar value, in either case of
the hexadecimal digits, as that scalar value. -/
theorem decodeStep_escapesOf (cp : Nat) (h : isScalarValue cp = true) (text rest : JSString)
    (ht : EscapesOf text (utf8Octets cp)) :
    decodeStep (text ++ rest) = .ok (utf16EncodeCodePoint cp, rest) := by
  by_cases h80 : cp < 0x80
  · have h8 : utf8Octets cp = [cp] := by simp [utf8Octets, h80]
    rw [h8] at ht
    obtain ⟨x, y, hi, lo, text1, htext, hx, hy, ho, ht1⟩ := escapesOf_cons_inv text cp [] ht
    cases ht1
    have h0 : leadingOnes (16 * hi + lo) = 0 := by
      rw [← ho]
      simp [leadingOnes, h80]
    have h16 : cp < 0x10000 := by omega
    rw [htext]
    show decodeStep (0x25 :: x :: y :: rest) = _
    simp only [decodeStep, if_true, parseHexOctet_digits x y hi lo _ hx hy, h0]
    rw [← ho]
    simp only [utf16EncodeCodePoint, h16, if_true]
  · obtain ⟨b, bs, h8, hn, hlo, hhi, hv⟩ := utf8Octets_valid cp h (by omega)
    rw [h8] at ht
    obtain ⟨x, y, hi, lo, text1, htext, hx, hy, ho, ht1⟩ := escapesOf_cons_inv text b bs ht
    have h1 : ¬ (bs.length + 1 = 0) := by omega
    have h2 : ¬ (bs.length + 1 = 1 ∨ bs.length + 1 > 4) := by omega
    rw [htext]
    show decodeStep (0x25 :: x :: y :: (text1 ++ rest)) = _
    simp only [decodeStep, if_true, parseHexOctet_digits x y hi lo _ hx hy]
    rw [← ho]
    simp only [hn, h1, h2, if_false, Nat.add_sub_cancel,
      readContinuation_escapesOf text1 bs ht1 rest, hv]

theorem decodeStep_utf8Octets (cp : Nat) (h : isScalarValue cp = true) (rest : JSString) :
    decodeStep (percentEscapes (utf8Octets cp) ++ rest) = .ok (utf16EncodeCodePoint cp, rest) :=
  decodeStep_escapesOf cp h _ rest (escapesOf_percentEscapes _ (utf8Octets_lt_256 cp h))

/-! ## Round trip of the codec -/

theorem encodeLoop_cons_unescaped (U : Nat → Bool) (c : Nat) (rest : JSString)
    (hu : U c = true) :
    encodeLoop U (c :: rest) =
      match encodeLoop U rest with
      | .ok r => .ok (c :: r)
      | .error e => .error e := by
  cases rest <;> simp [encodeLoop, hu]

theorem encodeLoop_cons_pair (U : Nat → Bool) (c d : Nat) (rest : JSString)
    (hu : U c = false) (hl : isLeadingSurrogate c = true) (hd : isTrailingSurrogate d = true) :
    encodeLoop U (c :: d :: rest) =
      match encodeLoop U rest with
      | .ok r =>
        .ok (percentEscapes (utf8Octets ((c - 0xD800) * 0x400 + (d - 0xDC00) + 0x10000)) ++ r)
      | .error e => .error e := by
  simp [encodeLoop, hu, hl, hd]

theorem encodeLoop_cons_other (U : Nat → Bool) (c : Nat) (rest : JSString)
    (hu : U c = false) (hl : isLeadingSurrogate c = false)
    (ht : isTrailingSurrogate c = false) :
    encodeLoop U (c :: rest) =
      match encodeLoop U rest with
      | .ok r => .ok (percentEscapes (utf8Octets c) ++ r)
      | .error e => .error e := by
  cases rest <;> simp [encodeLoop, hu, hl, ht]

theorem wellFormed_cons_leading (c : Nat) (rest : JSString)
    (hwf : wellFormed (c :: rest) = true) (hl : isLeadingSurrogate c = true) :
    ∃ d rest2, rest = d :: rest2 ∧ isTrailingSurrogate d = true ∧ wellFormed rest2 = true := by
  cases rest with
  | nil => simp [wellFormed, hl] at hwf
  | cons d rest2 =>
    simp only [wellFormed, hl, if_true, Bool.and_eq_true] at hwf
    exact ⟨d, rest2, rfl, hwf.1, hwf.2⟩

theorem wellFormed_cons_other (c : Nat) (rest : JSString)
    (hwf : wellFormed (c :: rest) = true) (hl : isLeadingSurrogate c = false) :
    c < 0x10000 ∧ isTrailingSurrogate c = false ∧ wellFormed rest = true := by
  cases rest with
  | nil =>
    simp [wellFormed, hl] at hwf
    exact ⟨hwf.1, hwf.2, rfl⟩
  | cons d rest2 =>
    simp [wellFormed, hl] at hwf
    exact ⟨hwf.1.1, hwf.1.2, hwf.2⟩

theorem decodeLoop_nil (fuel : Nat) : decodeLoop fuel [] = .ok [] := by
  cases fuel <;> rfl

theorem decodeLoop_of_step (fuel : Nat) (s out rest : JSString) (hs : s ≠ [])
    (h : decodeStep s = .ok (out, rest)) :
    decodeLoop (fuel + 1) s =
      match decodeLoop fuel rest with
      | .error e => .error e
      | .ok r => .ok (out ++ r) := by
  cases s with
  | nil => exact absurd rfl hs
  | cons c t => simp only [decodeLoop, h]

theorem percentEscapes_utf8Octets_length (cp : Nat) :
    3 ≤ (percentEscapes (utf8Octets cp)).length := by
  unfold utf8Octets
  split_ifs <;> simp [percentEscapes, percentEscape]

theorem decodeLoop_escaped (fuel cp : Nat) (r out : JSString) (h : isScalarValue cp = true)
    (hfuel : (percentEscapes (utf8Octets cp) ++ r).length ≤ fuel)
    (ih : ∀ f, r.length ≤ f → decodeLoop f r = .ok out) :
    decodeLoop fuel (percentEscapes (utf8Octets cp) ++ r) = .ok (utf16EncodeCodePoint cp ++ out) := by
  have h3 := percentEscapes_utf8Octets_length cp
  rw [List.length_append] at hfuel
  obtain ⟨f, rfl⟩ : ∃ f, fuel = f + 1 := ⟨fuel - 1, by omega⟩
  have hne : percentEscapes (utf8Octets cp) ++ r ≠ [] := by
    intro h0
    have := congrArg List.length h0
    rw [List.length_append, List.length_nil] at this
    omega
  rw [decodeLoop_of_step f _ _ _ hne (decodeStep_utf8Octets cp h r), ih f (by omega)]

theorem decode_encodeLoop (U : Nat → Bool) (hU : ∀ c, U c = true → c < 0x80 ∧ c ≠ 0x25)
    (n : Nat) :
    ∀ s e : JSString, s.length ≤ n → wellFormed s = true → encodeLoop U s = .ok e →
      ∀ fuel, e.length ≤ fuel → decodeLoop fuel e = .ok s := by
  induction n with
  | zero =>
    intro s e hlen _ henc fuel _
    cases s with
    | nil =>
      simp only [encodeLoop, Except.ok.injEq] at henc
      rw [← henc]
      exact decodeLoop_nil fuel
    | cons c rest => simp at hlen
  | succ n ih =>
    intro s e hlen hwf henc fuel hfuel
    cases s with
    | nil =>
      simp only [encodeLoop, Except.ok.injEq] at henc
      rw [← henc]
      exact decodeLoop_nil fuel
    | cons c rest =>
      simp only [List.length_cons] at hlen
      cases hu : U c with
      | true =>
        have hc := hU c hu
        have hl : isLeadingSurrogate c = false := by
          simp only [isLeadingSurrogate, Bool.and_eq_false_iff, decide_eq_false_iff_not]
          omega
        obtain ⟨_, _, hwf2⟩ := wellFormed_cons_other c rest hwf hl
        rw [encodeLoop_cons_unescaped U c rest hu] at henc
        cases hr : encodeLoop U rest with
        | error err => simp [hr] at henc
        | ok r =>
          simp only [hr, Except.ok.injEq] at henc
          subst henc
          simp only [List.length_cons] at hfuel
          obtain ⟨f, rfl⟩ : ∃ f, fuel = f + 1 := ⟨fuel - 1, by omega⟩
          have hstep : decodeStep (c :: r) = .ok ([c], r) := by
            simp [decodeStep, hc.2]
          rw [decodeLoop_of_step f _ _ _ (by simp) hstep,
            ih rest r (by omega) hwf2 hr f (by omega)]
          rfl
      | false =>
        cases hl : isLeadingSurrogate c with
        | true =>
          obtain ⟨d, rest2, rfl, hd, hwf2⟩ := wellFormed_cons_leading c rest hwf hl
          simp only [List.length_cons] at hlen
          rw [encodeLoop_cons_pair U c d rest2 hu hl hd] at henc
          cases hr : encodeLoop U rest2 with
          | error err => simp [hr] at henc
          | ok r =>
            simp only [hr, Except.ok.injEq] at henc
            subst henc
            simp only [isLeadingSurrogate, Bool.and_eq_true, decide_eq_true_eq] at hl
            simp only [isTrailingSurrogate, Bool.and_eq_true, decide_eq_true_eq] at hd
            have hsc : isScalarValue ((c - 0xD800) * 0x400 + (d - 0xDC00) + 0x10000) = true := by
              simp only [isScalarValue, Bool.and_eq_true, decide_eq_true_eq, Bool.not_eq_true',
                Bool.and_eq_false_iff, decide_eq_false_iff_not]
              omega
            rw [decodeLoop_escaped fuel _ r rest2 hsc hfuel
              (fun f hf => ih rest2 r (by omega) hwf2 hr f hf)]
            have h16 : utf16EncodeCodePoint ((c - 0xD800) * 0x400 + (d - 0xDC00) + 0x10000)
                = [c, d] := by
              unfold utf16EncodeCodePoint
              rw [if_neg (by omega)]
              have e1 : 0xD800 + ((c - 0xD800) * 0x400 + (d - 0xDC00) + 0x10000 - 0x10000) / 0x400
                  = c := by omega
              have e2 : 0xDC00 + ((c - 0xD800) * 0x400 + (d - 0xDC00) + 0x10000 - 0x10000) % 0x400
                  = d := by omega
              rw [e1, e2]
            rw [h16]
            rfl
        | false =>
          obtain ⟨hc, ht, hwf2⟩ := wellFormed_cons_other c rest hwf hl
          rw [encodeLoop_cons_other U c rest hu hl ht] at henc
          cases hr : encodeLoop U rest with
          | error err => simp [hr] at henc
          | ok r =>
            simp only [hr, Except.ok.injEq] at henc
            subst henc
            simp only [isLeadingSurrogate, Bool.and_eq_false_iff, decide_eq_false_iff_not] at hl
            simp only [isTrailingSurrogate, Bool.and_eq_false_iff, decide_eq_false_iff_not] at ht
            have hsc : isScalarValue c = true := by
              simp only [isScalarValue, Bool.and_eq_true, decide_eq_true_eq, Bool.not_eq_true',
                Bool.and_eq_false_iff, decide_eq_false_iff_not]
              omega
            rw [decodeLoop_escaped fuel _ r rest hsc hfuel
              (fun f hf => ih rest r (by omega) hwf2 hr f hf)]
            simp only [utf16EncodeCodePoint, hc, if_true]
            rfl

/-! ## The extra replacements of `Parser.encodeCode` and `Viz.encodeCode` -/

theorem replaceAll_append (q : Nat) (by_ a b : JSString) :
    replaceAll q by_ (a ++ b) = replaceAll q by_ a ++ replaceAll q by_ b := by
  induction a with
  | nil => rfl
  | cons x a ih =>
    by_cases hx : x = q
    · simp [replaceAll, hx, ih]
    · simp [replaceAll, hx, ih]

theorem replaceAll_of_not_mem (q : Nat) (by_ s : JSString) (h : q ∉ s) :
    replaceAll q by_ s = s := by
  induction s with
  | nil => rfl
  | cons x s ih =>
    have hx : x ≠ q := fun hxq => h (by simp [hxq])
    have hs : q ∉ s := fun hm => h (List.mem_cons_of_mem _ hm)
    simp [replaceAll, hx, ih hs]

theorem hexDigitUpper_ge (n : Nat) : 0x30 ≤ hexDigitUpper n := by
  unfold hexDigitUpper
  split_ifs <;> omega

theorem not_mem_percentEscapes (q : Nat) (hq : q < 0x30) (hq2 : q ≠ 0x25) (octets : List Nat) :
    q ∉ percentEscapes octets := by
  induction octets with
  | nil => simp [percentEscapes_nil]
  | cons b bs ih =>
    rw [percentEscapes_cons]
    have h1 := hexDigitUpper_ge (b / 16)
    have h2 := hexDigitUpper_ge (b % 16)
    simp only [List.mem_cons, not_or]
    exact ⟨hq2, by omega, by omega, ih⟩

theorem encodeLoop_replaceAll (U : Nat → Bool) (q : Nat) (hq : q < 0x30) (hq2 : q ≠ 0x25)
    (n : Nat) :
    ∀ s e : JSString, s.length ≤ n → encodeLoop U s = .ok e →
      encodeLoop (fun c => U c && c != q) s = .ok (replaceAll q (percentEscape q) e) := by
  induction n with
  | zero =>
    intro s e hlen henc
    cases s with
    | nil =>
      simp only [encodeLoop, Except.ok.injEq] at henc
      rw [← henc]
      rfl
    | cons c rest => simp at hlen
  | succ n ih =>
    intro s e hlen henc
    cases s with
    | nil =>
      simp only [encodeLoop, Except.ok.injEq] at henc
      rw [← henc]
      rfl
    | cons c rest =>
      simp only [List.length_cons] at hlen
      cases hu : U c with
      | true =>
        rw [encodeLoop_cons_unescaped U c rest hu] at henc
        cases hr : encodeLoop U rest with
        | error err => simp [hr] at henc
        | ok r =>
          simp only [hr, Except.ok.injEq] at henc
          subst henc
          have ih2 := ih rest r (by omega) hr
          by_cases hcq : c = q
          · subst hcq
            have hl : isLeadingSurrogate c = false := by
              simp only [isLeadingSurrogate, Bool.and_eq_false_iff, decide_eq_false_iff_not]
              omega
            have ht : isTrailingSurrogate c = false := by
              simp only [isTrailingSurrogate, Bool.and_eq_false_iff, decide_eq_false_iff_not]
              omega
            rw [encodeLoop_cons_other _ c rest (by simp [hu]) hl ht, ih2]
            have h8 : utf8Octets c = [c] := by
              unfold utf8Octets
              rw [if_pos (by omega)]
            simp [replaceAll, h8, percentEscapes, percentEscape]
          · rw [encodeLoop_cons_unescaped _ c rest (by simp [hu, hcq]), ih2]
            simp [replaceAll, hcq]
      | false =>
        cases hl : isLeadingSurrogate c with
        | true =>
          cases rest with
          | nil => simp [encodeLoop, hu, hl] at henc
          | cons d rest2 =>
            simp only [List.length_cons] at hlen
            cases hd : isTrailingSurrogate d with
            | false => simp [encodeLoop, hu, hl, hd] at henc
            | true =>
              rw [encodeLoop_cons_pair U c d rest2 hu hl hd] at henc
              cases hr : encodeLoop U rest2 with
              | error err => simp [hr] at henc
              | ok r =>
                simp only [hr, Except.ok.injEq] at henc
                subst henc
                rw [encodeLoop_cons_pair _ c d rest2 (by simp [hu]) hl hd,
                  ih rest2 r (by omega) hr, replaceAll_append,
                  replaceAll_of_not_mem q _ _ (not_mem_percentEscapes q hq hq2 _)]
        | false =>
          cases ht : isTrailingSurrogate c with
          | true =>
            cases rest <;> simp [encodeLoop, hu, hl, ht] at henc
          | false =>
            rw [encodeLoop_cons_other U c rest hu hl ht] at henc
            cases hr : encodeLoop U rest with
            | error err => simp [hr] at henc
            | ok r =>
              simp only [hr, Except.ok.injEq] at henc
              subst henc
              rw [encodeLoop_cons_other _ c rest (by simp [hu]) hl ht,
                ih rest r (by omega) hr, replaceAll_append,
                replaceAll_of_not_mem q _ _ (not_mem_percentEscapes q hq hq2 _)]

theorem alwaysUnescaped_ascii (c : Nat) (h : alwaysUnescaped c = true) : c < 0x80 ∧ c ≠ 0x25 := by
  simp only [alwaysUnescaped, Bool.or_eq_true, Bool.and_eq_true, decide_eq_true_eq,
    beq_iff_eq] at h
  omega

theorem uriComponentUnescaped_ascii (c : Nat) (h : uriComponentUnescaped c = true) :
    c < 0x80 ∧ c ≠ 0x25 := by
  apply alwaysUnescaped_ascii
  simpa [uriComponentUnescaped] using h

theorem quotedUnescaped_ascii (c : Nat) (h : quotedUnescaped c = true) :
    c < 0x80 ∧ c ≠ 0x25 := by
  apply uriComponentUnescaped_ascii
  simp only [quotedUnescaped, Bool.and_eq_true] at h
  exact h.1.1.1

/-- The encoders with the chained replacements are `Encode` with a smaller
unescaped set. -/
theorem escapeQuotesAndNewlines_encodeURIComponent (s e : JSString)
    (h : encodeURIComponent s = .ok e) :
    encodeLoop quotedUnescaped s = .ok (escapeQuotesAndNewlines e) := by
  have h1 := encodeLoop_replaceAll uriComponentUnescaped 0x27 (by decide) (by decide)
    s.length s e (le_refl _) h
  have h2 := encodeLoop_replaceAll _ 0x22 (by decide) (by decide) s.length s _ (le_refl _) h1
  have h3 := encodeLoop_replaceAll _ 0x0A (by decide) (by decide) s.length s _ (le_refl _) h2
  exact h3

/-- Round trip for every well-formed string, through each of the encoders. -/
theorem round_trip_of_wellFormed (s : JSString) (h : wellFormed s = true) :
    (∃ e, encodeCodeForUrl s = .ok e ∧ decodeCodeFromUrl e = .ok s) ∧
    (∃ e, Parser.encodeCode s = .ok e ∧ decodeCodeFromUrl e = .ok s) ∧
    (∃ e, Viz.encodeCode s = .ok e ∧ decodeCodeFromUrl e = .ok s) := by
  obtain ⟨e, he⟩ := encodeLoop_ok_of_wellFormed uriComponentUnescaped
    (fun c hc => (uriComponentUnescaped_ascii c hc).1) s.length s (le_refl _) h
  have he2 : encodeURIComponent s = .ok e := he
  have hd : decodeURIComponent e = .ok s :=
    decode_encodeLoop uriComponentUnescaped uriComponentUnescaped_ascii s.length s e
      (le_refl _) h he e.length (le_refl _)
  have hq := escapeQuotesAndNewlines_encodeURIComponent s e he2
  have hd2 : decodeURIComponent (escapeQuotesAndNewlines e) = .ok s :=
    decode_encodeLoop quotedUnescaped quotedUnescaped_ascii s.length s _
      (le_refl _) h hq _ (le_refl _)
  refine ⟨⟨e, he2, ?_⟩, ⟨escapeQuotesAndNewlines e, ?_, ?_⟩, ⟨escapeQuotesAndNewlines e, ?_, ?_⟩⟩
  · simp [decodeCodeFromUrl, hd]
  · simp [Parser.encodeCode, he2]
  · simp [decodeCodeFromUrl, hd2]
  · simp [Viz.encodeCode, he2]
  · simp [decodeCodeFromUrl, hd2]

theorem wellFormed_ofCodePoints (cps : List Nat) (h : ∀ cp ∈ cps, isScalarValue cp = true) :
    wellFormed (ofCodePoints cps) = true := by
  induction cps with
  | nil => rfl
  | cons cp cps ih =>
    have hcp := h cp (List.mem_cons_self _ _)
    have ih2 := ih (fun x hx => h x (List.mem_cons_of_mem _ hx))
    simp only [isScalarValue, Bool.and_eq_true, decide_eq_true_eq, Bool.not_eq_true',
      Bool.and_eq_false_iff, decide_eq_false_iff_not] at hcp
    have hcons : ofCodePoints (cp :: cps) = utf16EncodeCodePoint cp ++ ofCodePoints cps := by
      simp [ofCodePoints]
    rw [hcons]
    by_cases hb : cp < 0x10000
    · simp only [utf16EncodeCodePoint, hb, if_true, List.singleton_append]
      have hl : isLeadingSurrogate cp = false := by
        simp only [isLeadingSurrogate, Bool.and_eq_false_iff, decide_eq_false_iff_not]
        omega
      have ht : isTrailingSurrogate cp = false := by
        simp only [isTrailingSurrogate, Bool.and_eq_false_iff, decide_eq_false_iff_not]
        omega
      cases hrest : ofCodePoints cps with
      | nil => simp [wellFormed, hl, ht, hb]
      | cons d rest =>
        rw [hrest] at ih2
        simp [wellFormed, hl, ht, hb, ih2]
    · simp only [utf16EncodeCodePoint, hb, if_false, List.cons_append, List.nil_append]
      have hl : isLeadingSurrogate (0xD800 + (cp - 0x10000) / 0x400) = true := by
        simp only [isLeadingSurrogate, Bool.and_eq_true, decide_eq_true_eq]
        omega
      have ht : isTrailingSurrogate (0xDC00 + (cp - 0x10000) % 0x400) = true := by
        simp only [isTrailingSurrogate, Bool.and_eq_true, decide_eq_true_eq]
        omega
      simp only [wellFormed, hl, ht, if_true, Bool.true_and, ih2]

theorem isScalarValue_of_printable (cp : Nat) (h : isPrintableOrNewline cp = true) :
    isScalarValue cp = true := by
  simp only [isPrintableOrNewline, Bool.or_eq_true, beq_iff_eq, Bool.and_eq_true] at h
  rcases h with h | h
  · subst h
    decide
  · exact h.1.1

/-- C1: round trip of the URL codec.  For every string made only of printable
characters and newlines, each encoder of the repository (`encodeCodeForUrl`,
`Parser.encodeCode`, `Viz.encodeCode`) returns a text that `decodeCodeFromUrl`
maps back to the string. -/
theorem C1_round_trip (cps : List Nat) (h : ∀ cp ∈ cps, isPrintableOrNewline cp = true) :
    (∃ e, encodeCodeForUrl (ofCodePoints cps) = .ok e ∧
      decodeCodeFromUrl e = .ok (ofCodePoints cps)) ∧
    (∃ e, Parser.encodeCode (ofCodePoints cps) = .ok e ∧
      decodeCodeFromUrl e = .ok (ofCodePoints cps)) ∧
    (∃ e, Viz.encodeCode (ofCodePoints cps) = .ok e ∧
      decodeCodeFromUrl e = .ok (ofCodePoints cps)) :=
  round_trip_of_wellFormed (ofCodePoints cps)
    (wellFormed_ofCodePoints cps (fun cp hcp => isScalarValue_of_printable cp (h cp hcp)))

/-- C1 at the text `it's "é😀"` followed by a newline. -/
theorem C1_round_trip_witness :
    (∀ cp ∈ [0x69, 0x74, 0x27, 0x73, 0x20, 0x22, 0xE9, 0x1F600, 0x22, 0x0A],
      isPrintableOrNewline cp = true) ∧
    ((∃ e, encodeCodeForUrl
        (ofCodePoints [0x69, 0x74, 0x27, 0x73, 0x20, 0x22, 0xE9, 0x1F600, 0x22, 0x0A]) = .ok e ∧
      decodeCodeFromUrl e =
        .ok (ofCodePoints [0x69, 0x74, 0x27, 0x73, 0x20, 0x22, 0xE9, 0x1F600, 0x22, 0x0A])) ∧
    (∃ e, Parser.encodeCode
        (ofCodePoints [0x69, 0x74, 0x27, 0x73, 0x20, 0x22, 0xE9, 0x1F600, 0x22, 0x0A]) = .ok e ∧
      decodeCodeFromUrl e =
        .ok (ofCodePoints [0x69, 0x74, 0x27, 0x73, 0x20, 0x22, 0xE9, 0x1F600, 0x22, 0x0A])) ∧
    (∃ e, Viz.encodeCode
        (ofCodePoints [0x69, 0x74, 0x27, 0x73, 0x20, 0x22, 0xE9, 0x1F600, 0x22, 0x0A]) = .ok e ∧
      decodeCodeFromUrl e =
        .ok (ofCodePoints [0x69, 0x74, 0x27, 0x73, 0x20, 0x22, 0xE9, 0x1F600, 0x22, 0x0A]))) :=
  ⟨by decide, C1_round_trip _ (by decide)⟩

/-! ## What the encoders leave unescaped -/

theorem not_mem_replaceAll (q : Nat) (by_ s : JSString) (h : q ∉ by_) :
    q ∉ replaceAll q by_ s := by
  induction s with
  | nil => simp [replaceAll]
  | cons x s ih =>
    by_cases hx : x = q
    · simp only [replaceAll, hx, if_true, List.mem_append, not_or]
      exact ⟨h, ih⟩
    · simp only [replaceAll, hx, if_false, List.mem_cons, not_or]
      exact ⟨fun hq => hx hq.symm, ih⟩

theorem not_mem_replaceAll_of_not_mem (q c : Nat) (by_ s : JSString) (h : q ∉ by_)
    (hs : q ∉ s) : q ∉ replaceAll c by_ s := by
  induction s with
  | nil => simp [replaceAll]
  | cons x s ih =>
    have hx : q ≠ x := fun hq => hs (by simp [hq])
    have hs2 : q ∉ s := fun hm => hs (List.mem_cons_of_mem _ hm)
    by_cases hxc : x = c
    · simp only [replaceAll, hxc, if_true, List.mem_append, not_or]
      exact ⟨h, ih hs2⟩
    · simp only [replaceAll, hxc, if_false, List.mem_cons, not_or]
      exact ⟨hx, ih hs2⟩

/-- The chained replacements leave no `'`, no `"` and no newline, whatever
their input. -/
theorem escapeQuotesAndNewlines_clean (s : JSString) :
    0x27 ∉ escapeQuotesAndNewlines s ∧ 0x22 ∉ escapeQuotesAndNewlines s ∧
    0x0A ∉ escapeQuotesAndNewlines s := by
  unfold escapeQuotesAndNewlines
  refine ⟨?_, ?_, ?_⟩
  · apply not_mem_replaceAll_of_not_mem _ _ _ _ (by decide)
    apply not_mem_replaceAll_of_not_mem _ _ _ _ (by decide)
    exact not_mem_replaceAll _ _ _ (by decide)
  · apply not_mem_replaceAll_of_not_mem _ _ _ _ (by decide)
    exact not_mem_replaceAll _ _ _ (by decide)
  · exact not_mem_replaceAll _ _ _ (by decide)

/-- The output of `Parser.encodeCode` and of `Viz.encodeCode` holds no `'`, no
`"` and no newline. -/
theorem quoting_encoders_clean (s e : JSString)
    (h : Parser.encodeCode s = .ok e ∨ Viz.encodeCode s = .ok e) :
    0x27 ∉ e ∧ 0x22 ∉ e ∧ 0x0A ∉ e := by
  have key : ∃ r, e = escapeQuotesAndNewlines r := by
    rcases h with h | h
    · unfold Parser.encodeCode at h
      cases hr : encodeURIComponent s with
      | error err => simp [hr] at h
      | ok r =>
        simp only [hr, Except.ok.injEq] at h
        exact ⟨r, h.symm⟩
    · unfold Viz.encodeCode at h
      cases hr : encodeURIComponent s with
      | error err => simp [hr] at h
      | ok r =>
        simp only [hr, Except.ok.injEq] at h
        exact ⟨r, h.symm⟩
  obtain ⟨r, rfl⟩ := key
  exact escapeQuotesAndNewlines_clean r

/-- C2 at the input `it's`: `encodeCodeForUrl` returns `it's`, with the raw
single quote, where `Parser.encodeCode` and `Viz.encodeCode` return `it%27s`. -/
theorem C2_encodeCodeForUrl_keeps_single_quote :
    encodeCodeForUrl (js "it's") = .ok (js "it's") ∧ 0x27 ∈ js "it's" ∧
    Parser.encodeCode (js "it's") = .ok (js "it%27s") ∧
    Viz.encodeCode (js "it's") = .ok (js "it%27s") := by
  decide

/-! ## Malformed input of the decoder -/

theorem parseHexOctet_sound (s s1 : JSString) (b : Nat) (h : parseHexOctet s = some (b, s1)) :
    ∃ x y hi lo, s = x :: y :: s1 ∧ hexValue x = some hi ∧ hexValue y = some lo ∧
      b = 16 * hi + lo := by
  match s, h with
  | x :: y :: rest, h =>
    simp only [parseHexOctet] at h
    cases hx : hexValue x with
    | none => simp [hx] at h
    | some hi =>
      cases hy : hexValue y with
      | none => simp [hx, hy] at h
      | some lo =>
        simp only [hx, hy, Option.some.injEq, Prod.mk.injEq] at h
        exact ⟨x, y, hi, lo, by rw [h.2], hx, hy, h.1.symm⟩
  | [], h => simp [parseHexOctet] at h
  | [_], h => simp [parseHexOctet] at h

theorem readContinuation_sound (j : Nat) :
    ∀ (s s2 : JSString) (bs : List Nat), readContinuation j s = some (bs, s2) →
      ∃ text, EscapesOf text bs ∧ s = text ++ s2 ∧ bs.length = j := by
  induction j with
  | zero =>
    intro s s2 bs h
    simp only [readContinuation, Option.some.injEq, Prod.mk.injEq] at h
    exact ⟨[], by rw [← h.1]; exact EscapesOf.nil, by simp [h.2], by rw [← h.1]; rfl⟩
  | succ j ih =>
    intro s s2 bs h
    cases s with
    | nil => simp [readContinuation] at h
    | cons c s =>
      simp only [readContinuation] at h
      by_cases hc : c = 0x25
      · simp only [hc, if_true] at h
        cases hp : parseHexOctet s with
        | none => simp [hp] at h
        | some p =>
          obtain ⟨b, s1⟩ := p
          simp only [hp] at h
          cases hr : readContinuation j s1 with
          | none => simp [hr] at h
          | some q =>
            obtain ⟨bs1, s3⟩ := q
            simp only [hr, Option.some.injEq, Prod.mk.injEq] at h
            obtain ⟨x, y, hi, lo, hs, hx, hy, hb⟩ := parseHexOctet_sound s s1 b hp
            obtain ⟨text, ht, hs1, hlen⟩ := ih s1 s3 bs1 hr
            refine ⟨0x25 :: x :: y :: text, ?_, ?_, ?_⟩
            · rw [← h.1, hb]
              exact EscapesOf.cons x y hi lo text bs1 hx hy ht
            · rw [hc, hs, hs1, h.2]
              rfl
            · rw [← h.1]
              simp [hlen]
      · simp [hc] at h

theorem utf8CodePoint_sound (b v : Nat) (bs : List Nat)
    (hn : leadingOnes b = bs.length + 1) (hv : utf8CodePoint (b :: bs) = some v) :
    isScalarValue v = true ∧ utf8Octets v = b :: bs := by
  unfold leadingOnes at hn
  match bs, hn, hv with
  | [], _, hv => simp [utf8CodePoint] at hv
  | [b1], hn, hv =>
    simp only [List.length_cons, List.length_nil] at hn
    simp only [utf8CodePoint, isContinuation, Bool.and_eq_true, decide_eq_true_eq] at hv
    split_ifs at hn hv <;> try omega
    simp only [Option.some.injEq] at hv
    subst hv
    constructor
    · simp only [isScalarValue, Bool.and_eq_true, decide_eq_true_eq, Bool.not_eq_true',
        Bool.and_eq_false_iff, decide_eq_false_iff_not]
      omega
    · unfold utf8Octets
      rw [if_neg (by omega), if_pos (by omega)]
      have e1 : 0xC0 + ((b - 0xC0) * 0x40 + (b1 - 0x80)) / 0x40 = b := by omega
      have e2 : 0x80 + ((b - 0xC0) * 0x40 + (b1 - 0x80)) % 0x40 = b1 := by omega
      rw [e1, e2]
  | [b1, b2], hn, hv =>
    simp only [List.length_cons, List.length_nil] at hn
    simp only [utf8CodePoint, isContinuation, Bool.and_eq_true, decide_eq_true_eq,
      Bool.not_eq_true', Bool.and_eq_false_iff, decide_eq_false_iff_not] at hv
    split_ifs at hn hv <;> try omega
    simp only [Option.some.injEq] at hv
    subst hv
    constructor
    · simp only [isScalarValue, Bool.and_eq_true, decide_eq_true_eq, Bool.not_eq_true',
        Bool.and_eq_false_iff, decide_eq_false_iff_not]
      omega
    · unfold utf8Octets
      rw [if_neg (by omega), if_neg (by omega), if_pos (by omega)]
      have e1 : 0xE0 + ((b - 0xE0) * 0x1000 + (b1 - 0x80) * 0x40 + (b2 - 0x80)) / 0x1000 = b := by
        omega
      have e2 : 0x80 + ((b - 0xE0) * 0x1000 + (b1 - 0x80) * 0x40 + (b2 - 0x80)) / 0x40 % 0x40
          = b1 := by omega
      have e3 : 0x80 + ((b - 0xE0) * 0x1000 + (b1 - 0x80) * 0x40 + (b2 - 0x80)) % 0x40 = b2 := by
        omega
      rw [e1, e2, e3]
  | [b1, b2, b3], hn, hv =>
    simp only [List.length_cons, List.length_nil] at hn
    simp only [utf8CodePoint, isContinuation, Bool.and_eq_true, decide_eq_true_eq] at hv
    split_ifs at hn hv <;> try omega
    simp only [Option.some.injEq] at hv
    subst hv
    constructor
    · simp only [isScalarValue, Bool.and_eq_true, decide_eq_true_eq, Bool.not_eq_true',
        Bool.and_eq_false_iff, decide_eq_false_iff_not]
      omega
    · unfold utf8Octets
      rw [if_neg (by omega), if_neg (by omega), if_neg (by omega)]
      have e1 : 0xF0 + ((b - 0xF0) * 0x40000 + (b1 - 0x80) * 0x1000 + (b2 - 0x80) * 0x40 +
          (b3 - 0x80)) / 0x40000 = b := by omega
      have e2 : 0x80 + ((b - 0xF0) * 0x40000 + (b1 - 0x80) * 0x1000 + (b2 - 0x80) * 0x40 +
          (b3 - 0x80)) / 0x1000 % 0x40 = b1 := by omega
      have e3 : 0x80 + ((b - 0xF0) * 0x40000 + (b1 - 0x80) * 0x1000 + (b2 - 0x80) * 0x40 +
          (b3 - 0x80)) / 0x40 % 0x40 = b2 := by omega
      have e4 : 0x80 + ((b - 0xF0) * 0x40000 + (b1 - 0x80) * 0x1000 + (b2 - 0x80) * 0x40 +
          (b3 - 0x80)) % 0x40 = b3 := by omega
      rw [e1, e2, e3, e4]
  | _ :: _ :: _ :: _ :: _, _, hv => simp [utf8CodePoint] at hv

theorem escapesOf_length (text : JSString) (octets : List Nat) (h : EscapesOf text octets) :
    text.length = 3 * octets.length := by
  induction h with
  | nil => rfl
  | cons x y hi lo text octets _ _ _ ih =>
    simp only [List.length_cons, ih]
    omega

theorem utf8Octets_length_pos (cp : Nat) : 1 ≤ (utf8Octets cp).length := by
  unfold utf8Octets
  split_ifs <;> simp

/-- One successful iteration of the decoder consumed either a unit other than
`%`, or the escape sequence of one scalar value. -/
theorem decodeStep_sound (c : Nat) (rest out rest1 : JSString)
    (h : decodeStep (c :: rest) = .ok (out, rest1)) :
    (c ≠ 0x25 ∧ rest1 = rest ∧ out = [c]) ∨
    (∃ cp text, isScalarValue cp = true ∧ EscapesOf text (utf8Octets cp) ∧
      c :: rest = text ++ rest1 ∧ out = utf16EncodeCodePoint cp) := by
  simp only [decodeStep] at h
  by_cases hc : c = 0x25
  · right
    simp only [hc, if_true] at h
    cases hp : parseHexOctet rest with
    | none => simp [hp] at h
    | some p =>
      obtain ⟨b, s1⟩ := p
      simp only [hp] at h
      obtain ⟨x, y, hi, lo, hs, hx, hy, hb⟩ := parseHexOctet_sound rest s1 b hp
      by_cases h0 : leadingOnes b = 0
      · simp only [h0, if_true, Except.ok.injEq, Prod.mk.injEq] at h
        have hb7 : b < 0x80 := by
          unfold leadingOnes at h0
          split_ifs at h0
          assumption
        refine ⟨b, [0x25, x, y], ?_, ?_, ?_, ?_⟩
        · simp only [isScalarValue, Bool.and_eq_true, decide_eq_true_eq, Bool.not_eq_true',
            Bool.and_eq_false_iff, decide_eq_false_iff_not]
          omega
        · have h8 : utf8Octets b = [b] := by
            unfold utf8Octets
            rw [if_pos hb7]
          rw [h8, hb]
          exact EscapesOf.cons x y hi lo [] [] hx hy EscapesOf.nil
        · rw [hc, hs, h.2]
          rfl
        · rw [← h.1]
          simp only [utf16EncodeCodePoint]
          rw [if_pos (by omega)]
      · simp only [h0, if_false] at h
        by_cases h14 : leadingOnes b = 1 ∨ leadingOnes b > 4
        · simp [h14] at h
        · simp only [h14, if_false] at h
          cases hr : readContinuation (leadingOnes b - 1) s1 with
          | none => simp [hr] at h
          | some q =>
            obtain ⟨bs, s2⟩ := q
            simp only [hr] at h
            cases hv : utf8CodePoint (b :: bs) with
            | none => simp [hv] at h
            | some v =>
              simp only [hv, Except.ok.injEq, Prod.mk.injEq] at h
              obtain ⟨text, ht, hs1, hlen⟩ := readContinuation_sound _ s1 s2 bs hr
              obtain ⟨hsc, h8⟩ := utf8CodePoint_sound b v bs (by omega) hv
              refine ⟨v, 0x25 :: x :: y :: text, hsc, ?_, ?_, h.1.symm⟩
              · rw [h8, hb]
                exact EscapesOf.cons x y hi lo text bs hx hy ht
              · rw [hc, hs, hs1, h.2]
                rfl
  · left
    simp only [hc, if_false, Except.ok.injEq, Prod.mk.injEq] at h
    exact ⟨hc, h.2.symm, h.1.symm⟩

/-- Soundness of the decoder: when the loop returns a string, the input was
validly percent-encoded. -/
theorem wellEncoded_of_decodeLoop (fuel : Nat) :
    ∀ s r : JSString, s.length ≤ fuel → decodeLoop fuel s = .ok r → WellEncoded s := by
  induction fuel with
  | zero =>
    intro s r hlen _
    cases s with
    | nil => exact WellEncoded.nil
    | cons c rest => simp at hlen
  | succ fuel ih =>
    intro s r hlen h
    cases s with
    | nil => exact WellEncoded.nil
    | cons c rest =>
      simp only [List.length_cons] at hlen
      simp only [decodeLoop] at h
      cases hstep : decodeStep (c :: rest) with
      | error err => simp [hstep] at h
      | ok p =>
        obtain ⟨out, rest1⟩ := p
        simp only [hstep] at h
        cases hrec : decodeLoop fuel rest1 with
        | error err => simp [hrec] at h
        | ok r1 =>
          rcases decodeStep_sound c rest out rest1 hstep with ⟨hc, hr1, _⟩ | ⟨cp, text, hsc, ht, hs, _⟩
          · subst hr1
            exact WellEncoded.literal c rest1 hc (ih rest1 r1 (by omega) hrec)
          · have hl := escapesOf_length text _ ht
            have hp := utf8Octets_length_pos cp
            have hlen2 := congrArg List.length hs
            simp only [List.length_cons, List.length_append] at hlen2
            rw [hs]
            exact WellEncoded.escaped cp text rest1 hsc ht (ih rest1 r1 (by omega) hrec)

/-- Every iteration of the decoder consumes at least one unit. -/
theorem decodeStep_consumes (c : Nat) (rest out rest1 : JSString)
    (h : decodeStep (c :: rest) = .ok (out, rest1)) : rest1.length ≤ rest.length := by
  rcases decodeStep_sound c rest out rest1 h with ⟨_, hr, _⟩ | ⟨cp, text, _, ht, hs, _⟩
  · rw [hr]
  · have hl := escapesOf_length text _ ht
    have hp := utf8Octets_length_pos cp
    have hlen := congrArg List.length hs
    simp only [List.length_cons, List.length_append] at hlen
    omega

/-- The bound on the iterations is never reached: with any fuel that is at
least the length of the input the loop gives the same result. -/
theorem decodeLoop_enough_fuel (n : Nat) :
    ∀ (s : JSString) (f1 f2 : Nat), s.length ≤ n → s.length ≤ f1 → s.length ≤ f2 →
      decodeLoop f1 s = decodeLoop f2 s := by
  induction n with
  | zero =>
    intro s f1 f2 hn _ _
    cases s with
    | nil => rw [decodeLoop_nil, decodeLoop_nil]
    | cons c rest => simp at hn
  | succ n ih =>
    intro s f1 f2 hn h1 h2
    cases s with
    | nil => rw [decodeLoop_nil, decodeLoop_nil]
    | cons c rest =>
      simp only [List.length_cons] at hn h1 h2
      obtain ⟨g1, rfl⟩ : ∃ g, f1 = g + 1 := ⟨f1 - 1, by omega⟩
      obtain ⟨g2, rfl⟩ : ∃ g, f2 = g + 1 := ⟨f2 - 1, by omega⟩
      simp only [decodeLoop]
      cases hstep : decodeStep (c :: rest) with
      | error err => rfl
      | ok p =>
        obtain ⟨out, rest1⟩ := p
        have hle := decodeStep_consumes c rest out rest1 hstep
        simp only []
        rw [ih rest1 g1 g2 (by omega) (by omega) (by omega)]

/-- Completeness of the decoder: on a validly percent-encoded input the loop
returns a string. -/
theorem decodeLoop_ok_of_wellEncoded (s : JSString) (h : WellEncoded s) :
    ∀ fuel, s.length ≤ fuel → ∃ r, decodeLoop fuel s = .ok r := by
  induction h with
  | nil => exact fun fuel _ => ⟨[], decodeLoop_nil fuel⟩
  | literal c s hc _ ih =>
    intro fuel hfuel
    simp only [List.length_cons] at hfuel
    obtain ⟨f, rfl⟩ : ∃ f, fuel = f + 1 := ⟨fuel - 1, by omega⟩
    obtain ⟨r, hr⟩ := ih f (by omega)
    have hstep : decodeStep (c :: s) = .ok ([c], s) := by simp [decodeStep, hc]
    exact ⟨[c] ++ r, by rw [decodeLoop_of_step f _ _ _ (by simp) hstep, hr]⟩
  | escaped cp text s hsc ht _ ih =>
    intro fuel hfuel
    have hl := escapesOf_length text _ ht
    have hp := utf8Octets_length_pos cp
    rw [List.length_append] at hfuel
    obtain ⟨f, rfl⟩ : ∃ f, fuel = f + 1 := ⟨fuel - 1, by omega⟩
    obtain ⟨r, hr⟩ := ih f (by omega)
    have hne : text ++ s ≠ [] := by
      intro h0
      have := congrArg List.length h0
      rw [List.length_append, List.length_nil] at this
      omega
    exact ⟨utf16EncodeCodePoint cp ++ r,
      by rw [decodeLoop_of_step f _ _ _ hne (decodeStep_escapesOf cp hsc text s ht), hr]⟩

/-- The built-in `decodeURIComponent` returns a string exactly on the validly
percent-encoded inputs, and raises on all others. -/
theorem decodeURIComponent_ok_iff (s : JSString) :
    (∃ r, decodeURIComponent s = .ok r) ↔ WellEncoded s := by
  constructor
  · rintro ⟨r, hr⟩
    exact wellEncoded_of_decodeLoop s.length s r (le_refl _) hr
  · intro h
    exact decodeLoop_ok_of_wellEncoded s h s.length (le_refl _)

theorem hexValue_percent : hexValue 0x25 = none := by decide

theorem hasMalformedEscape_escapes (text : JSString) (octets : List Nat)
    (h : EscapesOf text octets) (s : JSString) :
    hasMalformedEscape (text ++ s) = hasMalformedEscape s := by
  induction h with
  | nil => rfl
  | cons x y hi lo text octets hx hy _ ih =>
    have hx2 : x ≠ 0x25 := by
      intro hxe
      rw [hxe, hexValue_percent] at hx
      cases hx
    have hy2 : y ≠ 0x25 := by
      intro hye
      rw [hye, hexValue_percent] at hy
      cases hy
    have hbx : (x == 0x25) = false := beq_false_of_ne hx2
    have hby : (y == 0x25) = false := beq_false_of_ne hy2
    simp [hasMalformedEscape, startsWithTwoHex, hx, hy, hbx, hby, ih]

theorem not_malformed_of_wellEncoded (s : JSString) (h : WellEncoded s) :
    hasMalformedEscape s = false := by
  induction h with
  | nil => rfl
  | literal c s hc _ ih => simp [hasMalformedEscape, hc, ih]
  | escaped cp text s _ ht _ ih => rw [hasMalformedEscape_escapes text _ ht s, ih]

/-- C3: `decodeCodeFromUrl` is total, and it returns the empty string for every
input with an invalid percent-escape: an input that holds a `%` not followed by
two hexadecimal digits, and more generally every input that is not a sequence
of plain units and of escape sequences that are the UTF-8 octets of a scalar
value. -/
theorem C3_decode_total (s : JSString) :
    (∃ r, decodeCodeFromUrl s = .ok r) ∧
    (hasMalformedEscape s = true → decodeCodeFromUrl s = .ok []) ∧
    (¬ WellEncoded s → decodeCodeFromUrl s = .ok []) := by
  have key : ¬ WellEncoded s → decodeCodeFromUrl s = .ok [] := by
    intro hne
    unfold decodeCodeFromUrl
    cases hd : decodeURIComponent s with
    | error err => rfl
    | ok r => exact absurd (wellEncoded_of_decodeLoop s.length s r (le_refl _) hd) hne
  refine ⟨?_, ?_, key⟩
  · unfold decodeCodeFromUrl
    cases hd : decodeURIComponent s with
    | error err => exact ⟨[], rfl⟩
    | ok r => exact ⟨r, rfl⟩
  · intro hm
    apply key
    intro hwe
    rw [not_malformed_of_wellEncoded s hwe] at hm
    cases hm

theorem utf8Octets_head_ne_255 (cp : Nat) (h : isScalarValue cp = true) (os : List Nat) :
    utf8Octets cp ≠ 255 :: os := by
  simp only [isScalarValue, Bool.and_eq_true, decide_eq_true_eq, Bool.not_eq_true',
    Bool.and_eq_false_iff, decide_eq_false_iff_not] at h
  unfold utf8Octets
  split_ifs <;> simp <;> omega

/-- The text `%FF` is not validly percent-encoded: no UTF-8 sequence starts
with the octet `0xFF`. -/
theorem not_wellEncoded_FF : ¬ WellEncoded (js "%FF") := by
  have e : js "%FF" = [0x25, 0x46, 0x46] := by decide
  rw [e]
  intro h
  generalize hs : [0x25, 0x46, 0x46] = s at h
  cases h with
  | nil => cases hs
  | literal c s1 hc _ =>
    injection hs with h1 _
    exact hc h1.symm
  | escaped cp text s1 hsc ht _ =>
    cases hoct : utf8Octets cp with
    | nil =>
      have := utf8Octets_length_pos cp
      rw [hoct] at this
      simp at this
    | cons o os =>
      rw [hoct] at ht
      obtain ⟨x, y, hi, lo, text1, htext, hx, hy, ho, _⟩ := escapesOf_cons_inv text o os ht
      rw [htext] at hs
      simp only [List.cons_append, List.cons.injEq] at hs
      obtain ⟨_, hx46, hy46, _⟩ := hs
      rw [← hx46] at hx
      rw [← hy46] at hy
      have h15 : hexValue 0x46 = some 15 := by decide
      rw [h15] at hx hy
      injection hx with hx
      injection hy with hy
      subst hx hy
      subst ho
      exact utf8Octets_head_ne_255 cp hsc os hoct

/-- C3 at the inputs `100% sure` and `%FF`. -/
theorem C3_decode_total_witness :
    (hasMalformedEscape (js "100% sure") = true ∧ decodeCodeFromUrl (js "100% sure") = .ok []) ∧
    (¬ WellEncoded (js "%FF") ∧ decodeCodeFromUrl (js "%FF") = .ok []) :=
  ⟨⟨by decide, (C3_decode_total (js "100% sure")).2.1 (by decide)⟩,
    ⟨not_wellEncoded_FF, (C3_decode_total (js "%FF")).2.2 not_wellEncoded_FF⟩⟩

/-! ## Editor page: the submit decision -/

theorem trim_nil : trim [] = [] := rfl

theorem navigateToVisualizer_blank (t : JSString) (w : Page) (h : trim t = []) :
    navigateToVisualizer t w =
      .ok { w with alerts := w.alerts ++ ["Please enter code before visualizing."] } := by
  simp [navigateToVisualizer, h]

theorem navigateToVisualizer_nonblank (t : JSString) (w : Page) (h : trim t ≠ []) :
    navigateToVisualizer t w =
      match encodeCodeForUrl t with
      | .error e => .error e
      | .ok encodedCode => .ok { w with href := some (js "visualizer.html?code=" ++ encodedCode) } := by
  have h2 : t ≠ [] := by
    intro h3
    rw [h3] at h
    exact h trim_nil
  simp [navigateToVisualizer, h, h2]

/-- C9, as stated, fails: the text of one space is non-empty, yet
`navigateToVisualizer` shows the alert and assigns no address; and the
non-empty text of one unpaired surrogate is neither alerted nor navigated, the
`URIError` of `encodeURIComponent` propagates. -/
theorem C9_counterexample :
    js " " ≠ [] ∧
    navigateToVisualizer (js " ") (Page.fresh (js "/index.html") [] (some []) (some []) none) =
      .ok ⟨js "/index.html", [], some [], some [], none, [], none, none, none,
        ["Please enter code before visualizing."], []⟩ ∧
    navigateToVisualizer [0xD800] (Page.fresh (js "/index.html") [] (some []) (some []) none) =
      .error .URIError := by
  decide

/-- C9, amended: `navigateToVisualizer(t)` shows the alert without navigating
exactly when `t` is empty or consists only of white space (`t.trim()` is
empty); and for a text without unpaired surrogate it navigates, to
`visualizer.html?code=` followed by the encoded text, exactly when `t.trim()`
is not empty. -/
theorem C9_submit_decision (t : JSString) (w : Page) :
    (navigateToVisualizer t w =
        .ok { w with alerts := w.alerts ++ ["Please enter code before visualizing."] } ↔
      trim t = []) ∧
    (wellFormed t = true →
      ((∃ e, encodeCodeForUrl t = .ok e ∧
          navigateToVisualizer t w = .ok { w with href := some (js "visualizer.html?code=" ++ e) }) ↔
        trim t ≠ [])) := by
  constructor
  · constructor
    · intro h
      by_contra hne
      rw [navigateToVisualizer_nonblank t w hne] at h
      cases he : encodeCodeForUrl t with
      | error err => simp [he] at h
      | ok e =>
        simp only [he, Except.ok.injEq] at h
        have h2 := congrArg (fun x => x.alerts.length) h
        simp at h2
    · exact navigateToVisualizer_blank t w
  · intro hwf
    constructor
    · rintro ⟨e, _, h⟩ hblank
      rw [navigateToVisualizer_blank t w hblank] at h
      simp only [Except.ok.injEq] at h
      have h2 := congrArg (fun x => x.alerts.length) h
      simp at h2
    · intro hne
      obtain ⟨e, he⟩ := encodeLoop_ok_of_wellFormed uriComponentUnescaped
        (fun c hc => (uriComponentUnescaped_ascii c hc).1) t.length t (le_refl _) hwf
      have he2 : encodeCodeForUrl t = .ok e := he
      refine ⟨e, he2, ?_⟩
      rw [navigateToVisualizer_nonblank t w hne, he2]

/-- C9 at the text `int x;`. -/
theorem C9_submit_decision_witness :
    wellFormed (js "int x;") = true ∧
    ((∃ e, encodeCodeForUrl (js "int x;") = .ok e ∧
        navigateToVisualizer (js "int x;")
            (Page.fresh (js "/index.html") [] (some []) (some []) none) =
          .ok { Page.fresh (js "/index.html") [] (some []) (some []) none with
            href := some (js "visualizer.html?code=" ++ e) }) ↔
      trim (js "int x;") ≠ []) :=
  ⟨by decide,
    (C9_submit_decision (js "int x;")
      (Page.fresh (js "/index.html") [] (some []) (some []) none)).2 (by decide)⟩

/-- C4, as stated, fails: on the editor page, a click with the editor text
`print(1)` assigns `visualizer.html?code=print(1)` to `location.href`, not
`visualizer.html?code=print%281%29`: `encodeURIComponent` leaves the
parentheses as they are. -/
theorem C4_counterexample :
    (match loadTypeClick (Page.fresh (js "/index.html") [] (some []) (some []) none)
        (js "print(1)") with
      | .ok w => w.href
      | .error _ => none) = some (js "visualizer.html?code=print(1)") ∧
    js "visualizer.html?code=print(1)" ≠ js "visualizer.html?code=print%281%29" := by
  decide

/-- C4, amended: on the editor page (path ending in `index.html` or `/`, with
the editor container and the button present), a click with a text `t` that is
not blank and that `encodeCodeForUrl` encodes as `e` assigns
`visualizer.html?code=` followed by `e` to `location.href`; for `print(1)` this
is `visualizer.html?code=print(1)`. -/
theorem C4_navigation_target (p search t e : JSString)
    (edEl btnEl frEl : Option (List Node))
    (hp : endsWith p (js "index.html") = true ∨ endsWith p (js "/") = true)
    (hed : edEl.isSome = true) (hbtn : btnEl.isSome = true) (ht : trim t ≠ [])
    (he : encodeCodeForUrl t = .ok e) :
    ∃ w2, loadTypeClick (Page.fresh p search edEl btnEl frEl) t = .ok w2 ∧
      w2.href = some (js "visualizer.html?code=" ++ e) := by
  obtain ⟨ed, rfl⟩ := Option.isSome_iff_exists.mp hed
  obtain ⟨bt, rfl⟩ := Option.isSome_iff_exists.mp hbtn
  have hp2 : (endsWith p (js "index.html") || endsWith p (js "/")) = true := by
    simpa using hp
  have hmain : main (Page.fresh p search (some ed) (some bt) frEl) =
      .ok ⟨p, search, some (ed ++ [Node.codeMirror]), some bt, frEl, [none],
        some ⟨defaultCode, false⟩, Page.getElementById
          (Page.fresh p search (some ed) (some bt) frEl) .iframeContainer, none, [], []⟩ := by
    simp [main, Page.fresh, hp2, initIndexPage, Page.getElementById, Page.children,
      initCodeEditor, Page.appendChild, Page.setChildren, setupEventListeners]
  have hclick : loadTypeClick (Page.fresh p search (some ed) (some bt) frEl) t =
      navigateToVisualizer t ⟨p, search, some (ed ++ [Node.codeMirror]), some bt, frEl, [none],
        some ⟨t, false⟩, Page.getElementById
          (Page.fresh p search (some ed) (some bt) frEl) .iframeContainer, none, [], []⟩ := by
    simp [loadTypeClick, hmain, click, Page.typeText, clickListener, hp2]
    intro h1 h2
    rcases hp with h | h
    · rw [h1] at h
      cases h
    · rw [h2] at h
      cases h
  rw [hclick, navigateToVisualizer_nonblank t _ ht, he]
  exact ⟨_, rfl, rfl⟩

/-- C4 at the path `/index.html` and the text `print(1)`. -/
theorem C4_navigation_target_witness :
    ∃ w2, loadTypeClick (Page.fresh (js "/index.html") [] (some []) (some []) none)
        (js "print(1)") = .ok w2 ∧
      w2.href = some (js "visualizer.html?code=" ++ js "print(1)") :=
  C4_navigation_target (js "/index.html") [] (js "print(1)") (js "print(1)") (some []) (some [])
    none (by decide) (by decide) (by decide) (by decide) (by decide)

/-! ## Viewer page: the code of the address and the iframe address -/

/-- C5, as stated, fails: with the query string `?code=print%281%29` the viewer
page reads `print(1)`, but the iframe address built for it is
`https://pythontutor.com/render.html#mode=display&code=print(1)&lang=c`, which
does not contain `code=print%281%29&lang=c`. -/
theorem C5_counterexample :
    getCodeFromUrl (Page.fresh (js "/visualizer.html") (js "?code=print%281%29")
      (some []) (some []) (some [])) = .ok (js "print(1)") ∧
    buildPythonTutorUrl (js "print(1)") none =
      .ok (js "https://pythontutor.com/render.html#mode=display&code=print(1)&lang=c") ∧
    ¬ (js "code=print%281%29&lang=c" <:+:
      js "https://pythontutor.com/render.html#mode=display&code=print(1)&lang=c") := by
  set_option maxRecDepth 100000 in
  decide

/-- C5, amended: the iframe address is
`https://pythontutor.com/render.html#mode=display&code=` followed by the
encoded code, `&lang=` and the language, which is `c` when omitted; with the
query string `?code=print%281%29` the viewer page reads `print(1)` and loads an
iframe whose address contains `code=print(1)&lang=c`. -/
theorem C5_iframe_address (code : JSString) (lang : Option JSString) :
    buildPythonTutorUrl code lang =
      (match encodeCodeForUrl code with
        | .error e => .error e
        | .ok encoded =>
          .ok (js "https://pythontutor.com/render.html#mode=display&code=" ++ encoded ++
            js "&lang=" ++ lang.getD (js "c"))) ∧
    getCodeFromUrl (Page.fresh (js "/visualizer.html") (js "?code=print%281%29")
      (some []) (some []) (some [])) = .ok (js "print(1)") ∧
    (match main (Page.fresh (js "/visualizer.html") (js "?code=print%281%29")
        (some []) (some []) (some [])) with
      | .ok w => w.iframeContainerEl
      | .error _ => none) =
      some [Node.iframe
        ⟨js "https://pythontutor.com/render.html#mode=display&code=print(1)&lang=c",
          [("id", "pt-iframe"), ("style.border", "none"), ("style.width", "100%"),
            ("style.height", "100%"), ("allowfullscreen", "true"),
            ("sandbox", "allow-scripts allow-same-origin allow-forms")]⟩] ∧
    js "code=print(1)&lang=c" <:+:
      js "https://pythontutor.com/render.html#mode=display&code=print(1)&lang=c" := by
  refine ⟨?_, ?_, ?_, ?_⟩
  · unfold buildPythonTutorUrl
    have hpre : PYTHON_TUTOR_RENDER_URL ++ js "#mode=display&code=" =
        js "https://pythontutor.com/render.html#mode=display&code=" := by decide
    cases encodeCodeForUrl code with
    | error e => rfl
    | ok encoded => simp only [hpre]
  · decide
  · set_option maxRecDepth 100000 in
    decide
  · set_option maxRecDepth 100000 in
    decide

/-! ## Empty code -/

/-- C6: empty code never produces an iframe.  `loadVisualizerIframe` called on
a present container with the empty code leaves in the container only the
error message, hence no iframe; and `initVisualizerPage`, when the address has
no `code` parameter or an empty one and the iframe container is present,
leaves in the container only the inline error, creates no editor (the `editor`
variable and the editor container are unchanged) and registers no listener. -/
theorem C6_empty_code_no_iframe (w : Page) (el : ElementId) (lang : Option JSString) :
    ((w.children el).isSome = true →
      ∃ w1, loadVisualizerIframe (some el) [] lang w = .ok w1 ∧
        w1.children el = some [Node.markup (js "<p style='color:red;'>No code to visualize.</p>")] ∧
        ∀ nodes, w1.children el = some nodes → ∀ n ∈ nodes, n.isIframe = false) ∧
    (w.iframeContainerEl.isSome = true →
      (URLSearchParams.get (URLSearchParams.new w.search) (js "code") = none ∨
        URLSearchParams.get (URLSearchParams.new w.search) (js "code") = some []) →
      ∃ w1, initVisualizerPage w = .ok w1 ∧
        w1.iframeContainerEl =
          some [Node.markup (js "<p style=\"color:red;\">No code provided to visualize.</p>")] ∧
        (∀ nodes, w1.iframeContainerEl = some nodes → ∀ n ∈ nodes, n.isIframe = false) ∧
        w1.editor = w.editor ∧ w1.editorEl = w.editorEl ∧ w1.listeners = w.listeners) := by
  constructor
  · intro hel
    obtain ⟨nodes, hn⟩ := Option.isSome_iff_exists.mp hel
    have hmsg : js "<p style='color:red;'>No code to visualize.</p>" ≠ [] := by decide
    have h2 : (w.setInnerHTML el (js "<p style='color:red;'>No code to visualize.</p>")).children el
        = some [Node.markup (js "<p style='color:red;'>No code to visualize.</p>")] := by
      cases el <;> simp_all [Page.setInnerHTML, Page.setChildren, Page.children]
    refine ⟨w.setInnerHTML el (js "<p style='color:red;'>No code to visualize.</p>"), ?_, h2, ?_⟩
    · simp [loadVisualizerIframe]
    · intro nodes1 h1 n hmem
      rw [h2] at h1
      injection h1 with h1
      subst h1
      simp only [List.mem_singleton] at hmem
      subst hmem
      rfl
  · intro hfr hcode
    obtain ⟨nodes, hn⟩ := Option.isSome_iff_exists.mp hfr
    have hmsg : js "<p style=\"color:red;\">No code provided to visualize.</p>" ≠ [] := by decide
    have hget : getCodeFromUrl w = .ok [] := by
      unfold getCodeFromUrl
      rcases hcode with h | h <;> rw [h] <;> rfl
    refine ⟨w.setInnerHTML .iframeContainer
      (js "<p style=\"color:red;\">No code provided to visualize.</p>"), ?_, ?_, ?_, rfl, rfl, rfl⟩
    · simp [initVisualizerPage, hget, Page.getElementById, Page.children, hn]
    · simp [Page.setInnerHTML, Page.setChildren, hn, hmsg]
    · intro nodes1 h1 n hmem
      simp only [Page.setInnerHTML, Page.setChildren, hn, hmsg, if_false, Option.map_some',
        Option.some.injEq] at h1
      subst h1
      simp only [List.mem_singleton] at hmem
      subst hmem
      rfl

/-- C6 at a viewer page without query string whose container holds an iframe. -/
theorem C6_empty_code_no_iframe_witness :
    (∃ w1, loadVisualizerIframe (some .iframeContainer) [] none
        (Page.fresh (js "/visualizer.html") [] (some []) (some [])
          (some [Node.iframe ⟨js "https://example.org/", []⟩])) = .ok w1 ∧
      w1.children .iframeContainer =
        some [Node.markup (js "<p style='color:red;'>No code to visualize.</p>")] ∧
      ∀ nodes, w1.children .iframeContainer = some nodes → ∀ n ∈ nodes, n.isIframe = false) ∧
    (∃ w1, initVisualizerPage
        (Page.fresh (js "/visualizer.html") [] (some []) (some [])
          (some [Node.iframe ⟨js "https://example.org/", []⟩])) = .ok w1 ∧
      w1.iframeContainerEl =
        some [Node.markup (js "<p style=\"color:red;\">No code provided to visualize.</p>")] ∧
      (∀ nodes, w1.iframeContainerEl = some nodes → ∀ n ∈ nodes, n.isIframe = false) ∧
      w1.editor = none ∧ w1.editorEl = some [] ∧ w1.listeners = []) :=
  ⟨(C6_empty_code_no_iframe
      (Page.fresh (js "/visualizer.html") [] (some []) (some [])
        (some [Node.iframe ⟨js "https://example.org/", []⟩])) .iframeContainer none).1
      (by decide),
    (C6_empty_code_no_iframe
      (Page.fresh (js "/visualizer.html") [] (some []) (some [])
        (some [Node.iframe ⟨js "https://example.org/", []⟩])) .iframeContainer none).2
      (by decide) (by decide)⟩

/-! ## Absent elements -/

/-- C8 at pages that lack an element: without the visualize button,
`initIndexPage` (and so `main`) raises `TypeError` at `addEventListener`;
on the viewer page with code in the address, an absent editor container makes
`initCodeEditor` return `null` and `initVisualizerPage` raises `TypeError` at
`editor.setOption`, after the iframe was loaded; without code, an absent
iframe container raises `TypeError` at the assignment to `innerHTML`.  The
helpers themselves do abort locally on an absent element. -/
theorem C8_absent_element_raises :
    initIndexPage (Page.fresh (js "/index.html") [] (some []) none none) = .error .TypeError ∧
    main (Page.fresh (js "/index.html") [] (some []) none none) = .error .TypeError ∧
    initVisualizerPage (Page.fresh (js "/visualizer.html") (js "?code=x") none (some [])
      (some [])) = .error .TypeError ∧
    initVisualizerPage (Page.fresh (js "/visualizer.html") [] (some []) (some []) none) =
      .error .TypeError ∧
    (initCodeEditor none (js "x")
      (Page.fresh (js "/visualizer.html") (js "?code=x") none (some []) (some []))).1 = none ∧
    (loadVisualizerIframe none (js "x") none
      (Page.fresh (js "/visualizer.html") [] (some []) (some []) none)).isOk = true ∧
    (Viz.createVisualizerIframe none (js "x")
      (Page.fresh (js "/index.html") [] (some []) (some []) none)).isOk = true := by
  decide

/-! ## Transport of the code through the address -/

/-- C10 at the text `printf("%d", x);`: the editor page navigates to
`visualizer.html?code=printf(%22%25d%22%2C%20x)%3B`; on the viewer page
`URLSearchParams` already returns the text as typed (which is what
`Parser.getCodeFromURL` returns), and `getCodeFromUrl` decodes it a second
time: the `%d` is no escape, the decoder raises and the code is lost, the
result is the empty string. -/
theorem C10_percent_lost_by_second_decoding :
    (match navigateToVisualizer (js "printf(\"%d\", x);")
        (Page.fresh (js "/index.html") [] (some []) (some []) none) with
      | .ok w => w.href
      | .error _ => none) = some (js "visualizer.html?code=printf(%22%25d%22%2C%20x)%3B") ∧
    searchOfHref (js "visualizer.html?code=printf(%22%25d%22%2C%20x)%3B") =
      js "?code=printf(%22%25d%22%2C%20x)%3B" ∧
    Parser.getCodeFromURL (Page.fresh (js "/visualizer.html")
      (js "?code=printf(%22%25d%22%2C%20x)%3B") (some []) (some []) (some [])) =
      js "printf(\"%d\", x);" ∧
    getCodeFromUrl (Page.fresh (js "/visualizer.html")
      (js "?code=printf(%22%25d%22%2C%20x)%3B") (some []) (some []) (some [])) = .ok [] ∧
    js "printf(\"%d\", x);" ≠ [] := by
  set_option maxRecDepth 100000 in
  decide

end CodeViz
